import Mathlib

/-!
Verification of the ARM64 single-pass code generator of the Wasmer
WebAssembly compiler (`lib/compiler-singlepass/src/machine_arm64.rs`).

The machine abstraction is shallowly embedded: the assembler buffer is a
list of abstract instructions, each emission method is a function from the
machine state to `Option (result × state)` (`none` models a Rust
`panic!`/`unreachable!`/`unimplemented!` or a failed `unwrap`), and the
sidecar metadata (trap table, address map) is carried in the state.
Instruction widths are 4 bytes (AArch64 is fixed width); label definitions
occupy 0 bytes.  `emit_mov_imm` of the instruction encoder, which is not
part of the file under verification, is modelled as a single 4-byte
instruction; no theorem below depends on the byte width of materialising
an immediate.
-/

namespace Wasmer

/-- Operand sizes, from `common_decl::Size`. -/
inductive Size where
  | S8 | S16 | S32 | S64
deriving DecidableEq, Repr

/-- AArch64 condition codes used by the generator. -/
inductive Cond where
  | Eq | Ne | Cs | Cc | Hi | Ls | Ge | Lt | Gt | Le
deriving DecidableEq, Repr

/-- General purpose registers `X0..X30` plus the combined zero/stack register. -/
inductive GPR where
  | X0 | X1 | X2 | X3 | X4 | X5 | X6 | X7
  | X8 | X9 | X10 | X11 | X12 | X13 | X14 | X15
  | X16 | X17 | X18 | X19 | X20 | X21 | X22 | X23
  | X24 | X25 | X26 | X27 | X28 | X29 | X30 | XzrSp
deriving DecidableEq, Repr

/-- NEON registers `V0..V31`. -/
inductive NEON where
  | V0 | V1 | V2 | V3 | V4 | V5 | V6 | V7
  | V8 | V9 | V10 | V11 | V12 | V13 | V14 | V15
  | V16 | V17 | V18 | V19 | V20 | V21 | V22 | V23
  | V24 | V25 | V26 | V27 | V28 | V29 | V30 | V31
deriving DecidableEq, Repr

/-- Trap codes recorded in the trap table. -/
inductive TrapCode where
  | StackOverflow
  | HeapAccessOutOfBounds
  | IntegerOverflow
  | IntegerDivisionByZero
deriving DecidableEq, Repr

/-- Index multiplier of the two-register memory form. -/
inductive Multiplier where
  | One | Two | Four | Eight
deriving DecidableEq, Repr

abbrev Label := Nat

/-- Abstract operand `Location`, from `location.rs` (specialised to ARM64).
Immediate payloads are kept as `Nat` (they are `u8`/`u32`/`u64` in the
source); memory displacements are `Int` (`i32` in the source). -/
inductive Loc where
  | GPR (r : GPR)
  | SIMD (v : NEON)
  | Imm8 (n : Nat)
  | Imm32 (n : Nat)
  | Imm64 (n : Nat)
  | Memory (base : GPR) (disp : Int)
  | Memory2 (base : GPR) (index : GPR) (mult : Multiplier) (disp : Int)
deriving DecidableEq, Repr

/-- The immediate kind tags checked by the legaliser (`ImmType`). -/
inductive ImmType where
  | None | NoneXzr
  | Bits8 | Bits12
  | Shift32 | Shift32No0 | Shift64 | Shift64No0
  | Logical32 | Logical64
  | UnscaledOffset
  | OffsetByte | OffsetHWord | OffsetWord | OffsetDWord
deriving DecidableEq, Repr

/-- Modelled from the spec: the AArch64 logical-immediate (bitmask) encoder
`encode_logical_immediate_64bit` lives in `emitter_arm64.rs`, which is not
part of the sources under verification.  Per the spec a value is encodable
iff it is a repetition of an element of size `e ∈ {2,4,8,16,32,64}` which
is itself a rotation of a contiguous run of ones (neither all-zero nor
all-ones).  No claim below depends on this predicate. -/
def isLogicalImmediate (width : Nat) (v : Nat) : Bool :=
  let v := v % 2 ^ width
  let elemSizes := (List.range 7).map (fun i => 2 ^ (i + 1)) |>.filter (· ≤ width)
  elemSizes.any fun e =>
    -- pattern repeats with period e
    (List.range (width / e)).all
      (fun blk => (List.range e).all
        (fun b => v.testBit (blk * e + b) = v.testBit b)) &&
    -- the element is a rotated run of ones, i.e. for some rotation r and
    -- run length len with 0 < len < e, the low element equals the rotation
    (List.range e).any fun r =>
      (List.range (e - 1)).any fun len1 =>
        (List.range e).all fun b =>
          v.testBit b = decide ((b + e - r) % e < len1 + 1)

/-- `encode_logical_immediate_32bit(imm).is_some()` (modelled from the spec,
see `isLogicalImmediate`). -/
def encodeLogicalImmediate32bitIsSome (v : Nat) : Bool :=
  isLogicalImmediate 32 v

/-- `encode_logical_immediate_64bit(imm).is_some()` (modelled from the spec,
see `isLogicalImmediate`). -/
def encodeLogicalImmediate64bitIsSome (v : Nat) : Bool :=
  isLogicalImmediate 64 v

/-- `MachineARM64::compatible_imm`.  The source tests the low bits with
`imm & 1 == 0` (resp. `& 3`, `& 7`); for two's-complement `i64` values this
is exactly `imm % 2 == 0` (resp. `% 4`, `% 8`) with Lean's `Int.emod`, which
is how it is written here.  The `Logical*` arms call the instruction
encoder's `encode_logical_immediate_*` on `imm as u32` / `imm as u64`. -/
def compatible_imm (imm : Int) (ty : ImmType) : Bool :=
  match ty with
  | ImmType.None => false
  | ImmType.NoneXzr => false
  | ImmType.Bits8 => imm ≥ 0 && imm < 256
  | ImmType.Bits12 => imm ≥ 0 && imm < 0x1000
  | ImmType.Shift32 => imm ≥ 0 && imm < 32
  | ImmType.Shift32No0 => imm > 0 && imm < 32
  | ImmType.Shift64 => imm ≥ 0 && imm < 64
  | ImmType.Shift64No0 => imm > 0 && imm < 64
  | ImmType.Logical32 => encodeLogicalImmediate32bitIsSome (imm % 2 ^ 32).toNat
  | ImmType.Logical64 => encodeLogicalImmediate64bitIsSome (imm % 2 ^ 64).toNat
  | ImmType.UnscaledOffset => imm > -256 && imm < 256
  | ImmType.OffsetByte => imm ≥ 0 && imm < 0x1000
  | ImmType.OffsetHWord => imm % 2 == 0 && imm ≥ 0 && imm < 0x2000
  | ImmType.OffsetWord => imm % 4 == 0 && imm ≥ 0 && imm < 0x4000
  | ImmType.OffsetDWord => imm % 8 == 0 && imm ≥ 0 && imm < 0x8000

/-- Two's-complement reinterpretation of an `i64` value as `u64` (Rust `as u64`). -/
def u64ofI64 (v : Int) : Nat := (v % 2 ^ 64).toNat

/-- Two's-complement reinterpretation of a `u64` value as `i64` (Rust `as i64`). -/
def i64ofU64 (n : Nat) : Int :=
  if n % 2 ^ 64 < 2 ^ 63 then ((n % 2 ^ 64 : Nat) : Int)
  else ((n % 2 ^ 64 : Nat) : Int) - 2 ^ 64

/-- Abstract assembler instructions: one constructor per `Assembler::emit_*`
entry point the generator uses in the methods modelled below.  The operand
order of the three-operand arithmetic forms is `(src1, src2, dst)` with
`dst ← src1 ⊕ src2`, as used consistently by the generator (e.g.
`emit_sub(S64, SP, 16, SP)` in `emit_push` decrements SP). -/
inductive Instr where
  | Mov (sz : Size) (src dst : Loc)
  | MovImm (dst : Loc) (val : Nat)
  | Movn (sz : Size) (dst : Loc) (imm : Nat)
  | Ldr (sz : Size) (dst src : Loc)
  | Ldur (sz : Size) (dst : Loc) (base : GPR) (off : Int)
  | Ldrsw (sz : Size) (dst src : Loc)
  | Ldrsh (sz : Size) (dst src : Loc)
  | Ldrsb (sz : Size) (dst src : Loc)
  | Str (sz : Size) (src dst : Loc)
  | Stur (sz : Size) (src : Loc) (base : GPR) (off : Int)
  | Add (sz : Size) (src1 src2 dst : Loc)
  | Adds (sz : Size) (src1 src2 dst : Loc)
  | Sub (sz : Size) (src1 src2 dst : Loc)
  | Cmp (sz : Size) (src1 src2 : Loc)
  | Tst (sz : Size) (src1 src2 : Loc)
  | Cbz (sz : Size) (reg : Loc) (lbl : Label)
  | Cbnz (sz : Size) (reg : Loc) (lbl : Label)
  | Bcond (c : Cond) (lbl : Label)
  | LabelDef (lbl : Label)
  | Sdiv (sz : Size) (src1 src2 dst : Loc)
  | Udiv (sz : Size) (src1 src2 dst : Loc)
  | Msub (sz : Size) (a b c dst : Loc)
  | Clz (sz : Size) (src dst : Loc)
  | Rbit (sz : Size) (src dst : Loc)
  | Lsl (sz : Size) (src1 src2 dst : Loc)
  | Sxtb (sz : Size) (src dst : Loc)
  | Sxth (sz : Size) (src dst : Loc)
  | Sxtw (sz : Size) (src dst : Loc)
deriving DecidableEq, Repr

/-- Byte width of an emitted instruction: AArch64 instructions are 4 bytes,
binding a label emits nothing. -/
def Instr.width : Instr → Nat
  | .LabelDef _ => 0
  | _ => 4

/-- The `MemoryImmediate { offset, align }` pair of a Wasm memory access. -/
structure MemoryImmediate where
  offset : Nat
  align : Nat
deriving DecidableEq, Repr

/-- The machine state of `MachineARM64`: the assembler buffer (with its
current byte offset), the used-register sets, the trap table, the
instruction address map, the current source location and the push-parity
flag, plus the assembler's label counter. `used_gprs`/`used_simd` are
`HashSet`s in the source; they are modelled as duplicate-free lists in
insertion order. The trap table is a map `byte offset → TrapCode`;
insertion overwrites, so it is modelled as an association list where the
most recent insertion is at the head. -/
structure Machine where
  buf : List Instr := []
  off : Nat := 0
  usedG : List GPR := []
  usedS : List NEON := []
  trap : List (Nat × TrapCode) := []
  addrMap : List (Nat × Nat × Nat) := []
  srcLoc : Nat := 0
  pushed : Bool := false
  labelCnt : Nat := 0
deriving DecidableEq, Repr

/-- A generator computation: state in, optional (value, state) out.
`none` models a Rust `panic!` / `unreachable!` / `unimplemented!` or an
`unwrap()` of `None`. -/
def M (α : Type) : Type := Machine → Option (α × Machine)

instance : Monad M where
  pure a := fun s => some (a, s)
  bind x f := fun s =>
    match x s with
    | none => none
    | some (a, s') => f a s'

/-- A failing computation (`panic!` / `unreachable!` / `unimplemented!`). -/
def mfail {α : Type} : M α := fun _ => none

@[simp] theorem run_pure {α : Type} (a : α) (s : Machine) :
    (pure a : M α) s = some (a, s) := rfl

@[simp] theorem run_bind {α β : Type} (x : M α) (f : α → M β) (s : Machine) :
    (x >>= f) s =
      match x s with
      | none => none
      | some (a, s') => f a s' := rfl

@[simp] theorem run_mfail {α : Type} (s : Machine) : (mfail : M α) s = none := rfl

/-- Append one instruction to the assembler buffer, advancing the offset. -/
def emitInstr (i : Instr) : M Unit := fun s =>
  some ((), { s with buf := s.buf ++ [i], off := s.off + i.width })

/-- `self.assembler.get_offset().0`. -/
def getOffset : M Nat := fun s => some (s.off, s)

/-- `self.assembler.get_label()` / `new_dynamic_label()`. -/
def newLabel : M Label := fun s => some (s.labelCnt, { s with labelCnt := s.labelCnt + 1 })

def getPushed : M Bool := fun s => some (s.pushed, s)

def setPushed (b : Bool) : M Unit := fun s => some ((), { s with pushed := b })

/-- The temp-pool GPRs tried in order by `pick_temp_gpr`. -/
def GPR_TEMP_REGS : List GPR :=
  [.X8, .X7, .X6, .X5, .X4, .X3, .X2, .X1]

/-- `pick_temp_gpr`: first free register of the temp pool. -/
def pick_temp_gpr (s : Machine) : Option GPR :=
  GPR_TEMP_REGS.find? (fun r => decide (r ∉ s.usedG))

/-- `acquire_temp_gpr().unwrap()`: every call site below unwraps, so pool
exhaustion is a failure. -/
def acquire_temp_gpr : M GPR := fun s =>
  match pick_temp_gpr s with
  | none => none
  | some g => some (g, { s with usedG := s.usedG ++ [g] })

/-- Remove the first occurrence of `g` (HashSet removal on a list model). -/
def eraseFirst : List GPR → GPR → List GPR
  | [], _ => []
  | x :: xs, g => if x = g then xs else x :: eraseFirst xs g

/-- `release_gpr`: `assert!(self.used_gprs.remove(&gpr))` — releasing a
register that is not marked used panics. -/
def release_gpr (g : GPR) : M Unit := fun s =>
  if g ∈ s.usedG then some ((), { s with usedG := eraseFirst s.usedG g })
  else none

/-- `for r in temps { self.release_gpr(r); }` -/
def releaseAll : List GPR → M Unit
  | [] => pure ()
  | r :: rs => do
      release_gpr r
      releaseAll rs

/-- `get_used_gprs`. The source iterates a `HashSet`, whose order is
unspecified; the model returns insertion order. -/
def get_used_gprs : M (List GPR) := fun s => some (s.usedG, s)

/-- Trap-table insertion (`offset_to_code.insert`): overwrites. -/
def trapInsert (t : List (Nat × TrapCode)) (k : Nat) (c : TrapCode) :
    List (Nat × TrapCode) := (k, c) :: t

/-- Trap-table lookup: the most recent insertion for a key wins. -/
def trapLookup (t : List (Nat × TrapCode)) (k : Nat) : Option TrapCode :=
  (t.find? (fun p => p.1 == k)).map (·.2)

/-- `mark_instruction_address_end`: push `(src_loc, begin, off − begin)`. -/
def mark_instruction_address_end (b : Nat) : M Unit := fun s =>
  some ((), { s with addrMap := s.addrMap ++ [(s.srcLoc, b, s.off - b)] })

/-- `mark_address_range_with_trap_code`: tag every byte offset in
`[b, e)` with `code`, then record the address-map entry. -/
def mark_address_range_with_trap_code (code : TrapCode) (b e : Nat) : M Unit := fun s =>
  match mark_instruction_address_end b
      { s with trap := (List.range' b (e - b)).foldl (fun t i => trapInsert t i code) s.trap } with
  | none => none
  | some (_, s') => some ((), s')

/-- `mark_instruction_with_trap_code`: tag the current offset, return it. -/
def mark_instruction_with_trap_code (code : TrapCode) : M Nat := fun s =>
  some (s.off, { s with trap := trapInsert s.trap s.off code })

/-- `get_vmctx_reg`. -/
def get_vmctx_reg : GPR := .X28

/-- `MachineARM64::location_to_reg`.  The Rust signature takes
`temps: &mut Vec<GPR>`; here the vector is passed in and the updated
vector is returned alongside the legalised location. -/
def location_to_reg (sz : Size) (src : Loc) (temps : List GPR)
    (allow_imm : ImmType) (read_val : Bool) (wanted : Option GPR) :
    M (Loc × List GPR) :=
  match src with
  | .GPR _ => pure (src, temps)
  | .SIMD _ => pure (src, temps)
  | .Imm8 val =>
      if allow_imm = .NoneXzr ∧ val = 0 then
        pure (.GPR .XzrSp, temps)
      else if compatible_imm (val : Int) allow_imm then
        pure (src, temps)
      else
        match wanted with
        | some tmp => do
            emitInstr (.MovImm (.GPR tmp) val)
            pure (.GPR tmp, temps)
        | none => do
            let tmp ← acquire_temp_gpr
            emitInstr (.MovImm (.GPR tmp) val)
            pure (.GPR tmp, temps ++ [tmp])
  | .Imm32 val =>
      if allow_imm = .NoneXzr ∧ val = 0 then
        pure (.GPR .XzrSp, temps)
      else if compatible_imm (val : Int) allow_imm then
        pure (src, temps)
      else
        match wanted with
        | some tmp => do
            emitInstr (.MovImm (.GPR tmp) val)
            pure (.GPR tmp, temps)
        | none => do
            let tmp ← acquire_temp_gpr
            emitInstr (.MovImm (.GPR tmp) val)
            pure (.GPR tmp, temps ++ [tmp])
  | .Imm64 val =>
      if allow_imm = .NoneXzr ∧ val = 0 then
        pure (.GPR .XzrSp, temps)
      else if compatible_imm (i64ofU64 val) allow_imm then
        pure (src, temps)
      else
        match wanted with
        | some tmp => do
            emitInstr (.MovImm (.GPR tmp) val)
            pure (.GPR tmp, temps)
        | none => do
            let tmp ← acquire_temp_gpr
            emitInstr (.MovImm (.GPR tmp) val)
            pure (.GPR tmp, temps ++ [tmp])
  | .Memory reg val => do
      let (tmp, temps) ←
        match wanted with
        | some t => pure (t, temps)
        | none => do
            let t ← acquire_temp_gpr
            pure (t, temps ++ [t])
      if read_val then do
        let offsize := if sz = .S32 then ImmType.OffsetWord else ImmType.OffsetDWord
        if compatible_imm val offsize then
          emitInstr (.Ldr sz (.GPR tmp) (.Memory reg val))
        else if compatible_imm val .UnscaledOffset then
          emitInstr (.Ldur sz (.GPR tmp) reg val)
        else if reg = tmp then
          mfail
        else do
          emitInstr (.MovImm (.GPR tmp) (u64ofI64 val))
          emitInstr (.Ldr sz (.GPR tmp) (.Memory2 reg tmp .One 0))
      else
        pure ()
      pure (.GPR tmp, temps)
  | _ => mfail

/-- `MachineARM64::offset_is_ok`. The source tests the low bits with
`offset & ((1 << shift) - 1)`; for the non-negative offsets reaching this
point that is `offset % 2^shift`. -/
def offset_is_ok (size : Size) (offset : Int) : Bool :=
  if offset < 0 then false
  else
    let shift : Nat :=
      match size with
      | .S8 => 0
      | .S16 => 1
      | .S32 => 2
      | .S64 => 3
    if offset ≥ 0x1000 * 2 ^ shift then false
    else if offset % 2 ^ shift ≠ 0 then false
    else true

/-- The register/SIMD-source arm of `move_location` (factored out because
the `(Memory, other)` arm of the source recurses into it after
materialising the source into a register). -/
def move_location_reg_src (size : Size) (source dest : Loc) : M Unit :=
  match dest with
  | .GPR _ => emitInstr (.Mov size source dest)
  | .SIMD _ => emitInstr (.Mov size source dest)
  | .Memory addr offs =>
      if offset_is_ok size offs then
        emitInstr (.Str size source dest)
      else if compatible_imm offs .UnscaledOffset then
        emitInstr (.Stur size source addr offs)
      else do
        let tmp := GPR.X17
        if offs < 0 then do
          emitInstr (.MovImm (.GPR tmp) (u64ofI64 (-offs)))
          emitInstr (.Sub .S64 (.GPR addr) (.GPR tmp) (.GPR tmp))
        else do
          emitInstr (.MovImm (.GPR tmp) (u64ofI64 offs))
          emitInstr (.Add .S64 (.GPR addr) (.GPR tmp) (.GPR tmp))
        emitInstr (.Str size source (.Memory tmp 0))
  | _ => mfail

/-- `MachineARM64::move_location`. -/
def move_location (size : Size) (source dest : Loc) : M Unit :=
  match source with
  | .GPR _ => move_location_reg_src size source dest
  | .SIMD _ => move_location_reg_src size source dest
  | .Imm8 _ =>
      match dest with
      | .GPR _ => emitInstr (.Mov size source dest)
      | _ => mfail
  | .Imm32 val =>
      match dest with
      | .GPR _ => emitInstr (.MovImm dest val)
      | _ => mfail
  | .Imm64 val =>
      match dest with
      | .GPR _ => emitInstr (.MovImm dest val)
      | _ => mfail
  | .Memory addr offs =>
      match dest with
      | .GPR _ | .SIMD _ =>
          if offset_is_ok size offs then
            emitInstr (.Ldr size dest source)
          else if offs > -256 ∧ offs < 256 then
            emitInstr (.Ldur size dest addr offs)
          else do
            let tmp := GPR.X17
            if offs < 0 then do
              emitInstr (.MovImm (.GPR tmp) (u64ofI64 (-offs)))
              emitInstr (.Sub .S64 (.GPR addr) (.GPR tmp) (.GPR tmp))
            else do
              emitInstr (.MovImm (.GPR tmp) (u64ofI64 offs))
              emitInstr (.Add .S64 (.GPR addr) (.GPR tmp) (.GPR tmp))
            emitInstr (.Ldr size dest (.Memory tmp 0))
      | _ => do
          -- The source recurses: `location_to_reg` then `move_location`
          -- with a register source, which is the factored arm above.
          let (src, temps) ← location_to_reg size source [] .None true none
          move_location_reg_src size src dest
          releaseAll temps
  | _ => mfail

/-- `emit_relaxed_binop`.  The `op` parameter stands for the
`fn(&mut Assembler, Size, Location, Location)` function pointer. -/
def emit_relaxed_binop (op : Size → Loc → Loc → Instr) (sz : Size)
    (src dst : Loc) (putback : Bool) : M Unit := do
  let src_imm := if putback then ImmType.None else ImmType.Bits12
  let (src', temps) ← location_to_reg sz src [] src_imm true none
  let (dest, temps) ← location_to_reg sz dst temps .None (!putback) none
  emitInstr (op sz src' dest)
  if dst ≠ dest ∧ putback then move_location sz dest dst else pure ()
  releaseAll temps

/-- `emit_relaxed_binop3`.  The `op` parameter stands for the
`fn(&mut Assembler, Size, Location, Location, Location)` pointer. -/
def emit_relaxed_binop3 (op : Size → Loc → Loc → Loc → Instr) (sz : Size)
    (src1 src2 dst : Loc) (allow_imm : ImmType) : M Unit := do
  let (src1', temps) ← location_to_reg sz src1 [] .None true none
  let (src2', temps) ← location_to_reg sz src2 temps allow_imm true none
  let (dest, temps) ← location_to_reg sz dst temps .None false none
  emitInstr (op sz src1' src2' dest)
  if dst ≠ dest then move_location sz dest dst else pure ()
  releaseAll temps

/-- `emit_relaxed_ldr64`. -/
def emit_relaxed_ldr64 (sz : Size) (dst src : Loc) : M Unit := do
  let (dest, temps) ← location_to_reg sz dst [] .None false none
  let temps ←
    match src with
    | .Memory addr offset =>
        if compatible_imm offset .OffsetDWord then do
          emitInstr (.Ldr .S64 dest src)
          pure temps
        else if compatible_imm offset .UnscaledOffset then do
          emitInstr (.Ldur .S64 dest addr offset)
          pure temps
        else do
          let tmp ← acquire_temp_gpr
          emitInstr (.MovImm (.GPR tmp) (u64ofI64 offset))
          emitInstr (.Ldr .S64 dest (.Memory2 addr tmp .One 0))
          pure (temps ++ [tmp])
    | _ => mfail
  if dst ≠ dest then move_location sz dest dst else pure ()
  releaseAll temps

/-- `emit_relaxed_ldr32`. -/
def emit_relaxed_ldr32 (sz : Size) (dst src : Loc) : M Unit := do
  let (dest, temps) ← location_to_reg sz dst [] .None false none
  let temps ←
    match src with
    | .Memory addr offset =>
        if compatible_imm offset .OffsetWord then do
          emitInstr (.Ldr .S32 dest src)
          pure temps
        else if compatible_imm offset .UnscaledOffset then do
          emitInstr (.Ldur .S32 dest addr offset)
          pure temps
        else do
          let tmp ← acquire_temp_gpr
          emitInstr (.MovImm (.GPR tmp) (u64ofI64 offset))
          emitInstr (.Ldr .S32 dest (.Memory2 addr tmp .One 0))
          pure (temps ++ [tmp])
    | _ => mfail
  if dst ≠ dest then move_location sz dest dst else pure ()
  releaseAll temps

/-- `emit_relaxed_ldr32s`. -/
def emit_relaxed_ldr32s (sz : Size) (dst src : Loc) : M Unit := do
  let (dest, temps) ← location_to_reg sz dst [] .None false none
  let temps ←
    match src with
    | .Memory addr offset =>
        if compatible_imm offset .OffsetWord then do
          emitInstr (.Ldrsw .S64 dest src)
          pure temps
        else do
          let tmp ← acquire_temp_gpr
          emitInstr (.MovImm (.GPR tmp) (u64ofI64 offset))
          emitInstr (.Ldrsw .S64 dest (.Memory2 addr tmp .One 0))
          pure (temps ++ [tmp])
    | _ => mfail
  if dst ≠ dest then move_location sz dest dst else pure ()
  releaseAll temps

/-- `emit_relaxed_ldr16s`. -/
def emit_relaxed_ldr16s (sz : Size) (dst src : Loc) : M Unit := do
  let (dest, temps) ← location_to_reg sz dst [] .None false none
  let temps ←
    match src with
    | .Memory addr offset =>
        if compatible_imm offset .OffsetHWord then do
          emitInstr (.Ldrsh sz dest src)
          pure temps
        else do
          let tmp ← acquire_temp_gpr
          emitInstr (.MovImm (.GPR tmp) (u64ofI64 offset))
          emitInstr (.Ldrsh sz dest (.Memory2 addr tmp .One 0))
          pure (temps ++ [tmp])
    | _ => mfail
  if dst ≠ dest then move_location sz dest dst else pure ()
  releaseAll temps

/-- `emit_relaxed_ldr8s`. -/
def emit_relaxed_ldr8s (sz : Size) (dst src : Loc) : M Unit := do
  let (dest, temps) ← location_to_reg sz dst [] .None false none
  let temps ←
    match src with
    | .Memory addr offset =>
        if compatible_imm offset .OffsetByte then do
          emitInstr (.Ldrsb sz dest src)
          pure temps
        else do
          let tmp ← acquire_temp_gpr
          emitInstr (.MovImm (.GPR tmp) (u64ofI64 offset))
          emitInstr (.Ldrsb sz dest (.Memory2 addr tmp .One 0))
          pure (temps ++ [tmp])
    | _ => mfail
  if dst ≠ dest then move_location sz dest dst else pure ()
  releaseAll temps

/-- The part of `MachineARM64::memory_op` that precedes the caller's
emission closure: temp acquisition, imported-memory indirection,
base/bound loads, effective-address computation, bounds compare and
alignment check.  Returns `tmp_addr`. -/
def memory_op_prelude (addr : Loc) (memarg : MemoryImmediate)
    (check_alignment : Bool) (value_size : Nat)
    (need_check imported_memories : Bool) (offset : Int)
    (heap_access_oob : Label) : M GPR := do
  let tmp_addr ← acquire_temp_gpr
  let (base_loc, bound_loc) ←
    (if imported_memories then do
      emit_relaxed_binop Instr.Mov .S64 (.Memory get_vmctx_reg offset)
        (.GPR tmp_addr) true
      pure (Loc.Memory tmp_addr 0, Loc.Memory tmp_addr 8)
    else
      pure (Loc.Memory get_vmctx_reg offset,
        Loc.Memory get_vmctx_reg (offset + 8)) : M (Loc × Loc))
  let tmp_base ← acquire_temp_gpr
  let tmp_bound ← acquire_temp_gpr
  emit_relaxed_ldr64 .S64 (.GPR tmp_base) base_loc
  let _ ←
    (if need_check then do
      emit_relaxed_ldr64 .S64 (.GPR tmp_bound) bound_loc
      emitInstr (.Add .S64 (.GPR tmp_bound) (.GPR tmp_base) (.GPR tmp_bound))
      if compatible_imm (value_size : Int) .Bits12 then
        -- Operand order exactly as in the source: registers
        -- `(tmp_bound, tmp_bound)` first, the immediate in the last
        -- (destination) position.
        emitInstr (.Sub .S64 (.GPR tmp_bound) (.GPR tmp_bound) (.Imm32 value_size))
      else do
        let tmp2 ← acquire_temp_gpr
        emitInstr (.MovImm (.GPR tmp2) value_size)
        emitInstr (.Sub .S64 (.GPR tmp_bound) (.GPR tmp2) (.GPR tmp_bound))
        release_gpr tmp2
    else pure () : M Unit)
  move_location .S32 addr (.GPR tmp_addr)
  let _ ←
    (if memarg.offset ≠ 0 then do
      let _ ←
        (if compatible_imm (memarg.offset : Int) .Bits12 then
          emitInstr (.Adds .S32 (.Imm32 memarg.offset) (.GPR tmp_addr) (.GPR tmp_addr))
        else do
          let tmp ← acquire_temp_gpr
          emitInstr (.MovImm (.GPR tmp) memarg.offset)
          emitInstr (.Adds .S32 (.GPR tmp_addr) (.GPR tmp) (.GPR tmp_addr))
          release_gpr tmp : M Unit)
      emitInstr (.Bcond .Cs heap_access_oob)
    else pure () : M Unit)
  emitInstr (.Add .S64 (.GPR tmp_base) (.GPR tmp_addr) (.GPR tmp_addr))
  let _ ←
    (if need_check then do
      emitInstr (.Cmp .S64 (.GPR tmp_bound) (.GPR tmp_addr))
      emitInstr (.Bcond .Hi heap_access_oob)
    else pure () : M Unit)
  release_gpr tmp_bound
  release_gpr tmp_base
  let _ ←
    (if check_alignment ∧ memarg.align ≠ 1 then do
      emitInstr (.Tst .S64 (.Imm32 (memarg.align - 1)) (.GPR tmp_addr))
      emitInstr (.Bcond .Ne heap_access_oob)
    else pure () : M Unit)
  pure tmp_addr

/-- `MachineARM64::memory_op`: guard prelude, then record `begin`, run the
caller's closure with `tmp_addr`, record `end`, tag `[begin, end)` with
`HeapAccessOutOfBounds` and release `tmp_addr`. -/
def memory_op (addr : Loc) (memarg : MemoryImmediate) (check_alignment : Bool)
    (value_size : Nat) (need_check imported_memories : Bool) (offset : Int)
    (heap_access_oob : Label) (cb : GPR → M Unit) : M Unit := do
  let tmp_addr ← memory_op_prelude addr memarg check_alignment value_size
    need_check imported_memories offset heap_access_oob
  let b ← getOffset
  cb tmp_addr
  let e ← getOffset
  mark_address_range_with_trap_code .HeapAccessOutOfBounds b e
  release_gpr tmp_addr

/-- `Machine::i32_load`. -/
def i32_load (addr : Loc) (memarg : MemoryImmediate) (ret : Loc)
    (need_check imported_memories : Bool) (offset : Int)
    (heap_access_oob : Label) : M Unit :=
  memory_op addr memarg false 4 need_check imported_memories offset
    heap_access_oob
    (fun a => emit_relaxed_ldr32 .S32 ret (.Memory a 0))

/-- `MachineARM64::emit_push`. -/
def emit_push (sz : Size) (src : Loc) : M Unit :=
  match sz, src with
  | .S64, .GPR _ | .S64, .SIMD _ => do
      let pushed ← getPushed
      let offset : Int ←
        if pushed then pure 0
        else do
          emitInstr (.Sub .S64 (.GPR .XzrSp) (.Imm8 16) (.GPR .XzrSp))
          pure 8
      emitInstr (.Stur .S64 src .XzrSp offset)
      setPushed (!pushed)
  | .S64, _ => do
      let (src, temps) ← location_to_reg .S64 src [] .None true none
      let pushed ← getPushed
      let offset : Int ←
        if pushed then pure 0
        else do
          emitInstr (.Sub .S64 (.GPR .XzrSp) (.Imm8 16) (.GPR .XzrSp))
          pure 8
      emitInstr (.Stur .S64 src .XzrSp offset)
      setPushed (!pushed)
      releaseAll temps
  | _, _ => mfail

/-- `MachineARM64::emit_pop`. -/
def emit_pop (sz : Size) (dst : Loc) : M Unit :=
  match sz, dst with
  | .S64, .GPR _ | .S64, .SIMD _ => do
      let pushed ← getPushed
      let offset : Int := if pushed then 8 else 0
      emitInstr (.Ldur .S64 dst .XzrSp offset)
      if pushed then
        emitInstr (.Add .S64 (.GPR .XzrSp) (.Imm8 16) (.GPR .XzrSp))
      else pure ()
      setPushed (!pushed)
  | _, _ => mfail

/-- `for r in used_gprs.iter() { self.emit_push(Size::S64, Location::GPR(*r)) }` -/
def pushAllRegs : List GPR → M Unit
  | [] => pure ()
  | r :: rs => do
      emit_push .S64 (.GPR r)
      pushAllRegs rs

/-- `Machine::push_used_gpr`: XZR pad first when the used count is odd,
then one 8-byte push per used register; returns the SP adjustment. -/
def push_used_gpr : M Nat := do
  let used_gprs ← get_used_gprs
  if used_gprs.length % 2 == 1 then emit_push .S64 (.GPR .XzrSp) else pure ()
  pushAllRegs used_gprs
  pure (((used_gprs.length + 1) / 2) * 16)

/-- `Machine::emit_binop_udiv32`. -/
def emit_binop_udiv32 (loc_a loc_b ret : Loc)
    (integer_division_by_zero _integer_overflow : Label) : M Nat := do
  let (src1, temps) ← location_to_reg .S32 loc_a [] .None true none
  let (src2, temps) ← location_to_reg .S32 loc_b temps .None true none
  let (dest, temps) ← location_to_reg .S32 ret temps .None false none
  emitInstr (.Cbz .S32 src2 integer_division_by_zero)
  let offset ← mark_instruction_with_trap_code .IntegerOverflow
  emitInstr (.Udiv .S32 src1 src2 dest)
  if ret ≠ dest then move_location .S32 dest ret else pure ()
  releaseAll temps
  pure offset

/-- `Machine::emit_binop_sdiv32`. -/
def emit_binop_sdiv32 (loc_a loc_b ret : Loc)
    (integer_division_by_zero integer_overflow : Label) : M Nat := do
  let (src1, temps) ← location_to_reg .S32 loc_a [] .None true none
  let (src2, temps) ← location_to_reg .S32 loc_b temps .None true none
  let (dest, temps) ← location_to_reg .S32 ret temps .None false none
  emitInstr (.Cbz .S32 src2 integer_division_by_zero)
  let label_nooverflow ← newLabel
  let (tmp, temps) ← location_to_reg .S32 (.Imm32 0x80000000) temps .None true none
  emitInstr (.Cmp .S32 tmp src1)
  emitInstr (.Bcond .Ne label_nooverflow)
  emitInstr (.Movn .S32 tmp 0)
  emitInstr (.Cmp .S32 tmp src2)
  emitInstr (.Bcond .Eq integer_overflow)
  let offset ← mark_instruction_with_trap_code .IntegerOverflow
  emitInstr (.LabelDef label_nooverflow)
  emitInstr (.Sdiv .S32 src1 src2 dest)
  if ret ≠ dest then move_location .S32 dest ret else pure ()
  releaseAll temps
  pure offset

/-- `Machine::emit_binop_urem32`. -/
def emit_binop_urem32 (loc_a loc_b ret : Loc)
    (integer_division_by_zero _integer_overflow : Label) : M Nat := do
  let (src1, temps) ← location_to_reg .S32 loc_a [] .None true none
  let (src2, temps) ← location_to_reg .S32 loc_b temps .None true none
  let (dest, temps) ← location_to_reg .S32 ret temps .None false none
  let (dest, temps) ←
    if dest = src1 ∨ dest = src2 then do
      let tmp ← acquire_temp_gpr
      emitInstr (.Mov .S32 dest (.GPR tmp))
      pure (Loc.GPR tmp, temps ++ [tmp])
    else pure (dest, temps)
  emitInstr (.Cbz .S32 src2 integer_division_by_zero)
  let offset ← mark_instruction_with_trap_code .IntegerOverflow
  emitInstr (.Udiv .S32 src1 src2 dest)
  emitInstr (.Msub .S32 dest src2 src1 dest)
  if ret ≠ dest then move_location .S32 dest ret else pure ()
  releaseAll temps
  pure offset

/-- `Machine::emit_binop_srem32`. -/
def emit_binop_srem32 (loc_a loc_b ret : Loc)
    (integer_division_by_zero _integer_overflow : Label) : M Nat := do
  let (src1, temps) ← location_to_reg .S32 loc_a [] .None true none
  let (src2, temps) ← location_to_reg .S32 loc_b temps .None true none
  let (dest, temps) ← location_to_reg .S32 ret temps .None false none
  let (dest, temps) ←
    if dest = src1 ∨ dest = src2 then do
      let tmp ← acquire_temp_gpr
      emitInstr (.Mov .S32 dest (.GPR tmp))
      pure (Loc.GPR tmp, temps ++ [tmp])
    else pure (dest, temps)
  emitInstr (.Cbz .S32 src2 integer_division_by_zero)
  let offset ← mark_instruction_with_trap_code .IntegerOverflow
  emitInstr (.Sdiv .S32 src1 src2 dest)
  emitInstr (.Msub .S32 dest src2 src1 dest)
  if ret ≠ dest then move_location .S32 dest ret else pure ()
  releaseAll temps
  pure offset

/-- `Machine::emit_binop_udiv64`. -/
def emit_binop_udiv64 (loc_a loc_b ret : Loc)
    (integer_division_by_zero _integer_overflow : Label) : M Nat := do
  let (src1, temps) ← location_to_reg .S64 loc_a [] .None true none
  let (src2, temps) ← location_to_reg .S64 loc_b temps .None true none
  let (dest, temps) ← location_to_reg .S64 ret temps .None false none
  emitInstr (.Cbz .S64 src2 integer_division_by_zero)
  let offset ← mark_instruction_with_trap_code .IntegerOverflow
  emitInstr (.Udiv .S64 src1 src2 dest)
  if ret ≠ dest then move_location .S64 dest ret else pure ()
  releaseAll temps
  pure offset

/-- `Machine::i32_popcnt`: the CLZ loop (no GPR popcount instruction). -/
def i32_popcnt (loc ret : Loc) : M Unit := do
  let (src, temps) ← location_to_reg .S32 loc [] .None true none
  let (dest, temps) ← location_to_reg .S32 ret temps .None false none
  let (src, temps) ←
    if src = loc then do
      let tmp ← acquire_temp_gpr
      emitInstr (.Mov .S32 src (.GPR tmp))
      pure (Loc.GPR tmp, temps ++ [tmp])
    else pure (src, temps)
  let (tmp, temps) ← do
    let t ← acquire_temp_gpr
    pure (Loc.GPR t, temps ++ [t])
  let label_loop ← newLabel
  let label_exit ← newLabel
  emitInstr (.Mov .S32 (.GPR .XzrSp) dest)
  emitInstr (.Cbz .S32 src label_exit)
  emitInstr (.LabelDef label_loop)
  emitInstr (.Add .S32 dest (.Imm8 1) dest)
  emitInstr (.Clz .S32 src tmp)
  emitInstr (.Add .S32 tmp (.Imm8 1) tmp)
  emitInstr (.Lsl .S32 src tmp src)
  emitInstr (.Cbnz .S32 src label_loop)
  emitInstr (.LabelDef label_exit)
  if ret ≠ dest then move_location .S32 dest ret else pure ()
  releaseAll temps

/-- `emit_relaxed_sign_extension` — implemented in the source (signed
loads for memory sources, `sxtb/sxth/sxtw` otherwise). -/
def emit_relaxed_sign_extension (sz_src : Size) (src : Loc) (sz_dst : Size)
    (dst : Loc) : M Unit :=
  match src, dst with
  | .Memory _ _, .GPR _ =>
      (match sz_src with
      | .S8 => emit_relaxed_ldr8s sz_dst dst src
      | .S16 => emit_relaxed_ldr16s sz_dst dst src
      | .S32 => emit_relaxed_ldr32s sz_dst dst src
      | _ => mfail)
  | _, _ => do
      let (src', temps) ← location_to_reg sz_dst src [] .None true none
      let (dest, temps) ← location_to_reg sz_dst dst temps .None false none
      (match sz_src with
      | .S8 => emitInstr (.Sxtb sz_dst src' dest)
      | .S16 => emitInstr (.Sxth sz_dst src' dest)
      | .S32 => emitInstr (.Sxtw sz_dst src' dest)
      | _ => mfail)
      if dst ≠ dest then move_location sz_dst dest dst else pure ()
      releaseAll temps

/-- `emit_relaxed_zero_extension`: `unimplemented!()`. -/
def emit_relaxed_zero_extension (_sz_src : Size) (_src : Loc)
    (_sz_dst : Size) (_dst : Loc) : M Unit := mfail

/-- `i32_atomic_load`: `unimplemented!()`. -/
def i32_atomic_load (_addr : Loc) (_memarg : MemoryImmediate) (_ret : Loc)
    (_need_check _imported_memories : Bool) (_offset : Int)
    (_heap_access_oob : Label) : M Unit := mfail

/-- `i32_atomic_save`: `unimplemented!()`. -/
def i32_atomic_save (_value : Loc) (_memarg : MemoryImmediate)
    (_target_addr : Loc) (_need_check _imported_memories : Bool)
    (_offset : Int) (_heap_access_oob : Label) : M Unit := mfail

/-- `i64_atomic_load`: `unimplemented!()`. -/
def i64_atomic_load (_addr : Loc) (_memarg : MemoryImmediate) (_ret : Loc)
    (_need_check _imported_memories : Bool) (_offset : Int)
    (_heap_access_oob : Label) : M Unit := mfail

/-- `i32_atomic_add`: `unimplemented!()`. -/
def i32_atomic_add (_loc _target : Loc) (_memarg : MemoryImmediate)
    (_ret : Loc) (_need_check _imported_memories : Bool) (_offset : Int)
    (_heap_access_oob : Label) : M Unit := mfail

/-- `convert_i32_f32` (integer result from `f32` source, the `sat` flag
selecting `trunc_sat`): `unimplemented!()`. -/
def convert_i32_f32 (_loc _ret : Loc) (_signed _sat : Bool) : M Unit := mfail

/-- `convert_i64_f64`: `unimplemented!()`. -/
def convert_i64_f64 (_loc _ret : Loc) (_signed _sat : Bool) : M Unit := mfail

/-- `convert_i32_f64`: `unimplemented!()`. -/
def convert_i32_f64 (_loc _ret : Loc) (_signed _sat : Bool) : M Unit := mfail

/-- `convert_i64_f32`: `unimplemented!()`. -/
def convert_i64_f32 (_loc _ret : Loc) (_signed _sat : Bool) : M Unit := mfail

/-- `f32_trunc`: `unimplemented!()`. -/
def f32_trunc (_loc _ret : Loc) : M Unit := mfail

/-- `f32_ceil`: `unimplemented!()`. -/
def f32_ceil (_loc _ret : Loc) : M Unit := mfail

/-- `f32_floor`: `unimplemented!()`. -/
def f32_floor (_loc _ret : Loc) : M Unit := mfail

/-- `f32_nearest`: `unimplemented!()`. -/
def f32_nearest (_loc _ret : Loc) : M Unit := mfail

/-- `f64_trunc`: `unimplemented!()`. -/
def f64_trunc (_loc _ret : Loc) : M Unit := mfail

/-- `f64_ceil`: `unimplemented!()`. -/
def f64_ceil (_loc _ret : Loc) : M Unit := mfail

/-- `f64_floor`: `unimplemented!()`. -/
def f64_floor (_loc _ret : Loc) : M Unit := mfail

/-- `f64_nearest`: `unimplemented!()`. -/
def f64_nearest (_loc _ret : Loc) : M Unit := mfail

/-- `canonicalize_nan`: `unimplemented!()`. -/
def canonicalize_nan (_sz : Size) (_input _output : Loc) : M Unit := mfail

/-- Net stack-pointer adjustment of an instruction sequence: sums the
`sub sp, sp, #k` / `add sp, sp, #k` instructions emitted by
`emit_push`/`emit_pop`. -/
def spDelta : List Instr → Int
  | [] => 0
  | .Sub .S64 (.GPR .XzrSp) (.Imm8 k) (.GPR .XzrSp) :: rest => -(k : Int) + spDelta rest
  | .Add .S64 (.GPR .XzrSp) (.Imm8 k) (.GPR .XzrSp) :: rest => (k : Int) + spDelta rest
  | _ :: rest => spDelta rest

/-! ### A small executor for emitted straight-line code

To settle the dynamic aspects of the division claims ("branches … before
any division instruction is executed", "only when the dividend equals
`0x80000000`") we execute the emitted trace under AArch64 semantics for
the handful of instruction forms those traces contain. -/

def szBits : Size → Nat
  | .S8 => 8
  | .S16 => 16
  | .S32 => 32
  | .S64 => 64

/-- Register file: unsigned 64-bit register contents, as an association
list (registers not present read as zero). -/
def RegFile := List (GPR × Nat)

def RegFile.set (rf : RegFile) (r : GPR) (v : Nat) : RegFile := (r, v) :: rf

def RegFile.get (rf : RegFile) (r : GPR) : Nat :=
  match rf with
  | [] => 0
  | (x, v) :: rest => if x = r then v else RegFile.get rest r

/-- Read an operand, truncated to the operation size.  `XzrSp` reads as
zero in the operand positions executed here. -/
def readLoc (sz : Size) (rf : RegFile) : Loc → Option Nat
  | .GPR .XzrSp => some 0
  | .GPR r => some (rf.get r % 2 ^ szBits sz)
  | .Imm8 n => some (n % 2 ^ szBits sz)
  | .Imm32 n => some (n % 2 ^ szBits sz)
  | .Imm64 n => some (n % 2 ^ szBits sz)
  | _ => none

def writeLoc (rf : RegFile) : Loc → Nat → Option RegFile
  | .GPR r, v => some (RegFile.set rf r v)
  | _, _ => none

/-- Condition evaluation against the operand pair of the last `cmp a, b`
(flags of `a − b`).  Only the conditions reached by the executed traces
are given semantics; the signed conditions make the executor stick. -/
def evalCond : Cond → Nat × Nat → Option Bool
  | .Eq, (a, b) => some (decide (a = b))
  | .Ne, (a, b) => some (decide (a ≠ b))
  | .Cs, (a, b) => some (decide (b ≤ a))
  | .Cc, (a, b) => some (decide (a < b))
  | .Hi, (a, b) => some (decide (b < a))
  | .Ls, (a, b) => some (decide (a ≤ b))
  | _, _ => none

/-- Two's-complement value of an unsigned `bits`-wide register image. -/
def toSigned (bits : Nat) (n : Nat) : Int :=
  if n % 2 ^ bits < 2 ^ (bits - 1) then (n % 2 ^ bits : Nat)
  else ((n % 2 ^ bits : Nat) : Int) - 2 ^ bits

/-- Unsigned `bits`-wide image of an integer. -/
def ofSigned (bits : Nat) (v : Int) : Nat := (v % 2 ^ bits).toNat

/-- AArch64 `sdiv`: signed division rounding towards zero; a zero divisor
yields zero (the instruction never faults). -/
def sdivVal (bits : Nat) (a b : Nat) : Nat :=
  let a := toSigned bits a
  let b := toSigned bits b
  ofSigned bits (a.sign * b.sign * ((a.natAbs / b.natAbs : Nat) : Int))

/-- AArch64 `udiv`: unsigned division; a zero divisor yields zero. -/
def udivVal (bits : Nat) (a b : Nat) : Nat :=
  (a % 2 ^ bits) / (b % 2 ^ bits)

/-- Index of the definition of `lbl` in the program, if bound. -/
def gotoLabel (prog : List Instr) (lbl : Label) : Option Nat :=
  prog.findIdx? (· == Instr.LabelDef lbl)

/-- Execution outcome: fell off the end, exited by branching to a label
not bound in the program (the caller-supplied trap labels), ran out of
fuel, or reached an unmodelled instruction form. -/
inductive Outcome where
  | fellOff
  | exitTo (lbl : Label)
  | outOfFuel
  | stuck
deriving DecidableEq, Repr

/-- Fueled executor; also returns the list of executed instructions. -/
def run (prog : List Instr) :
    Nat → Nat → RegFile → Nat × Nat → List Instr → Outcome × List Instr
  | 0, _, _, _, ex => (.outOfFuel, ex)
  | fuel + 1, pc, rf, flags, ex =>
    match prog[pc]? with
    | none => (.fellOff, ex)
    | some i =>
      let ex := ex ++ [i]
      match i with
      | .MovImm dst v =>
          match writeLoc rf dst v with
          | none => (.stuck, ex)
          | some rf => run prog fuel (pc + 1) rf flags ex
      | .Mov sz src dst =>
          match readLoc sz rf src with
          | none => (.stuck, ex)
          | some v =>
            match writeLoc rf dst v with
            | none => (.stuck, ex)
            | some rf => run prog fuel (pc + 1) rf flags ex
      | .Movn sz dst imm =>
          match writeLoc rf dst (2 ^ szBits sz - 1 - imm % 2 ^ szBits sz) with
          | none => (.stuck, ex)
          | some rf => run prog fuel (pc + 1) rf flags ex
      | .Cmp sz a b =>
          match readLoc sz rf a, readLoc sz rf b with
          | some va, some vb => run prog fuel (pc + 1) rf (va, vb) ex
          | _, _ => (.stuck, ex)
      | .Cbz sz r lbl =>
          match readLoc sz rf r with
          | none => (.stuck, ex)
          | some v =>
            if v = 0 then
              match gotoLabel prog lbl with
              | some t => run prog fuel t rf flags ex
              | none => (.exitTo lbl, ex)
            else run prog fuel (pc + 1) rf flags ex
      | .Cbnz sz r lbl =>
          match readLoc sz rf r with
          | none => (.stuck, ex)
          | some v =>
            if v ≠ 0 then
              match gotoLabel prog lbl with
              | some t => run prog fuel t rf flags ex
              | none => (.exitTo lbl, ex)
            else run prog fuel (pc + 1) rf flags ex
      | .Bcond c lbl =>
          match evalCond c flags with
          | none => (.stuck, ex)
          | some b =>
            if b then
              match gotoLabel prog lbl with
              | some t => run prog fuel t rf flags ex
              | none => (.exitTo lbl, ex)
            else run prog fuel (pc + 1) rf flags ex
      | .LabelDef _ => run prog fuel (pc + 1) rf flags ex
      | .Sdiv sz a b dst =>
          match readLoc sz rf a, readLoc sz rf b with
          | some va, some vb =>
            match writeLoc rf dst (sdivVal (szBits sz) va vb) with
            | none => (.stuck, ex)
            | some rf => run prog fuel (pc + 1) rf flags ex
          | _, _ => (.stuck, ex)
      | .Udiv sz a b dst =>
          match readLoc sz rf a, readLoc sz rf b with
          | some va, some vb =>
            match writeLoc rf dst (udivVal (szBits sz) va vb) with
            | none => (.stuck, ex)
            | some rf => run prog fuel (pc + 1) rf flags ex
          | _, _ => (.stuck, ex)
      | _ => (.stuck, ex)

/-- Number of division instructions in an instruction list. -/
def countDiv (l : List Instr) : Nat :=
  l.countP fun i =>
    match i with
    | .Sdiv _ _ _ _ => true
    | .Udiv _ _ _ _ => true
    | _ => false

/-- Number of instructions belonging to a MIN/−1 overflow check
(`cmp`/`movn`/conditional branch) in an instruction list. -/
def countOverflowCheck (l : List Instr) : Nat :=
  l.countP fun i =>
    match i with
    | .Cmp _ _ _ => true
    | .Movn _ _ _ => true
    | .Bcond _ _ => true
    | _ => false

/-- The sequence emitted by
`i32_load(X9, {offset:0x10, align:4}, X10, need_check=true,
imported_memories=false, offset=0x30, oob)` with `oob = 100`:
load base `[X28+0x30]`, load bound `[X28+0x38]`, `bound += base`, the
bound-adjust `sub` with the `#4` immediate in destination position, the
32-bit address move, `adds #0x10` with its `b.cs` carry branch,
`addr += base`, `cmp bound, addr`, `b.hi`, and the guarded `ldr`. -/
def i32LoadFailingTrace : List Instr :=
  [.Ldr .S64 (.GPR .X7) (.Memory .X28 0x30),
   .Ldr .S64 (.GPR .X6) (.Memory .X28 0x38),
   .Add .S64 (.GPR .X6) (.GPR .X7) (.GPR .X6),
   .Sub .S64 (.GPR .X6) (.GPR .X6) (.Imm32 4),
   .Mov .S32 (.GPR .X9) (.GPR .X8),
   .Adds .S32 (.Imm32 0x10) (.GPR .X8) (.GPR .X8),
   .Bcond .Cs 100,
   .Add .S64 (.GPR .X7) (.GPR .X8) (.GPR .X8),
   .Cmp .S64 (.GPR .X6) (.GPR .X8),
   .Bcond .Hi 100,
   .Ldr .S32 (.GPR .X10) (.Memory .X8 0)]

/-- The sequence `i32.load offset=0x10 align=4` is claimed (spec scenario 2)
to produce: no carry branch after the `adds`, and a bound-adjust `sub`
that actually subtracts the access size from the bound register. -/
def i32LoadClaimedTrace : List Instr :=
  [.Ldr .S64 (.GPR .X7) (.Memory .X28 0x30),
   .Ldr .S64 (.GPR .X6) (.Memory .X28 0x38),
   .Add .S64 (.GPR .X6) (.GPR .X7) (.GPR .X6),
   .Sub .S64 (.GPR .X6) (.Imm32 4) (.GPR .X6),
   .Mov .S32 (.GPR .X9) (.GPR .X8),
   .Adds .S32 (.Imm32 0x10) (.GPR .X8) (.GPR .X8),
   .Add .S64 (.GPR .X7) (.GPR .X8) (.GPR .X8),
   .Cmp .S64 (.GPR .X6) (.GPR .X8),
   .Bcond .Hi 100,
   .Ldr .S32 (.GPR .X10) (.Memory .X8 0)]

/-- The trace emitted by `emit_binop_sdiv32(X9, X10, X11, 100, 101)` from a
fresh machine (label 0 is the internal no-overflow label). -/
def sdiv32Trace : List Instr :=
  [.Cbz .S32 (.GPR .X10) 100,
   .MovImm (.GPR .X8) 0x80000000,
   .Cmp .S32 (.GPR .X8) (.GPR .X9),
   .Bcond .Ne 0,
   .Movn .S32 (.GPR .X8) 0,
   .Cmp .S32 (.GPR .X8) (.GPR .X10),
   .Bcond .Eq 101,
   .LabelDef 0,
   .Sdiv .S32 (.GPR .X9) (.GPR .X10) (.GPR .X11)]

/-- The push sequence C7 claims for used set `{X19, X20, X21}` (XZR pad
pushed last). -/
def pushUsedGprClaimedTrace : List Instr :=
  [.Sub .S64 (.GPR .XzrSp) (.Imm8 16) (.GPR .XzrSp),
   .Stur .S64 (.GPR .X19) .XzrSp 8,
   .Stur .S64 (.GPR .X20) .XzrSp 0,
   .Sub .S64 (.GPR .XzrSp) (.Imm8 16) (.GPR .XzrSp),
   .Stur .S64 (.GPR .X21) .XzrSp 8,
   .Sub .S64 (.GPR .XzrSp) (.Imm8 16) (.GPR .XzrSp),
   .Stur .S64 (.GPR .XzrSp) .XzrSp 8]

/-- The push sequence the code emits for used set `{X19, X20, X21}` (XZR
pad pushed first, then the registers in iteration order). -/
def pushUsedGprActualTrace : List Instr :=
  [.Sub .S64 (.GPR .XzrSp) (.Imm8 16) (.GPR .XzrSp),
   .Stur .S64 (.GPR .XzrSp) .XzrSp 8,
   .Stur .S64 (.GPR .X19) .XzrSp 0,
   .Sub .S64 (.GPR .XzrSp) (.Imm8 16) (.GPR .XzrSp),
   .Stur .S64 (.GPR .X20) .XzrSp 8,
   .Stur .S64 (.GPR .X21) .XzrSp 0]

/-- Starting state of the C7 scenario: callee-saved set `{X19, X20, X21}`
marked used. -/
def pushUsedGprStart : Machine := { usedG := [.X19, .X20, .X21] }

/-- Final machine state of the `i32.load offset=0x10` scenario started from
a fresh machine: the trace above, 44 bytes of code, the guarded `ldr`'s
byte range `[40, 44)` trap-tagged, one address-map entry. -/
def i32LoadFinal : Machine :=
  { buf := i32LoadFailingTrace, off := 44,
    trap := [(43, .HeapAccessOutOfBounds), (42, .HeapAccessOutOfBounds),
             (41, .HeapAccessOutOfBounds), (40, .HeapAccessOutOfBounds)],
    addrMap := [(0, 40, 4)] }

/-- Final machine state of `emit_binop_sdiv32(X9, X10, X11, 100, 101)` from
a fresh machine: `sdiv32Trace`, with the `sdiv` byte offset 28 tagged
`IntegerOverflow`. -/
def sdiv32Final : Machine :=
  { buf := sdiv32Trace, off := 32, trap := [(28, .IntegerOverflow)],
    labelCnt := 1 }

/-- Final machine state of the C7 `push_used_gpr` scenario. -/
def pushUsedGprFinal : Machine :=
  { buf := pushUsedGprActualTrace, off := 24, usedG := [.X19, .X20, .X21] }

/-- Execution of the emitted `i32.div_s` trace on dividend `w9` (in X9)
and divisor `w10` (in X10), all other registers zero. -/
def sdiv32Run (w9 w10 : Nat) : Outcome × List Instr :=
  run sdiv32Trace 20 0 [(.X9, w9), (.X10, w10)] (0, 0) []

/-- `used_gprs`/`used_simd` discipline: `s'` extends `s` by exactly the
fresh temporaries `new` (in acquisition order), with SIMD untouched. -/
abbrev Extends (s s' : Machine) (new : List GPR) : Prop :=
  s'.usedG = s.usedG ++ new ∧ (∀ g ∈ new, g ∉ s.usedG) ∧ new.Nodup ∧
    s'.usedS = s.usedS

/-- A computation leaves both used-register sets unchanged. -/
def PreservesUsed {α : Type} (m : M α) : Prop :=
  ∀ s a s', m s = some (a, s') → s'.usedG = s.usedG ∧ s'.usedS = s.usedS

/-- Final state of `emit_relaxed_binop3 Instr.Add .S32 X0 X1 X2` from the
empty machine: one instruction, no temporaries left marked used. -/
def C5binop3Final : Machine :=
  { buf := [.Add .S32 (.GPR .X0) (.GPR .X1) (.GPR .X2)], off := 4 }

/-- Final state of `memory_op` (no bounds check, no alignment check,
zero memarg offset, vmctx offset `0x30`, trivial callback) from the empty
machine. -/
def C5memFinal : Machine :=
  { buf := [.Ldr .S64 (.GPR .X7) (.Memory .X28 48),
      .Mov .S32 (.GPR .X9) (.GPR .X8),
      .Add .S64 (.GPR .X7) (.GPR .X8) (.GPR .X8)],
    off := 12, addrMap := [(0, 12, 0)] }

/-- Final state of `i32_popcnt (GPR X0) (GPR X1)` from the empty machine. -/
def C5popcntFinal : Machine :=
  { buf := [.Mov .S32 (.GPR .X0) (.GPR .X8),
      .Mov .S32 (.GPR .XzrSp) (.GPR .X1),
      .Cbz .S32 (.GPR .X8) 1,
      .LabelDef 0,
      .Add .S32 (.GPR .X1) (.Imm8 1) (.GPR .X1),
      .Clz .S32 (.GPR .X8) (.GPR .X7),
      .Add .S32 (.GPR .X7) (.Imm8 1) (.GPR .X7),
      .Lsl .S32 (.GPR .X8) (.GPR .X7) (.GPR .X8),
      .Cbnz .S32 (.GPR .X8) 0,
      .LabelDef 1],
    off := 32, labelCnt := 2 }

end Wasmer

namespace Wasmer

/-- C8: The immediate classifier accepts exactly the specified ranges:
`Bits12` accepts 4095 and rejects 4096; `OffsetDWord` accepts 8 and 32760
and rejects 7 and 32768; `UnscaledOffset` accepts −255 and 255 and rejects
−256 and 256; and in general `OffsetByte/HWord/Word/DWord` accept exactly
the non-negative values below `4096·s` whose low `log2 s` bits are zero,
for `s = 1, 2, 4, 8` respectively. -/
theorem C8_compatible_imm_ranges :
    (compatible_imm 4095 ImmType.Bits12 = true ∧
     compatible_imm 4096 ImmType.Bits12 = false) ∧
    (compatible_imm 8 ImmType.OffsetDWord = true ∧
     compatible_imm 32760 ImmType.OffsetDWord = true ∧
     compatible_imm 7 ImmType.OffsetDWord = false ∧
     compatible_imm 32768 ImmType.OffsetDWord = false) ∧
    (compatible_imm (-255) ImmType.UnscaledOffset = true ∧
     compatible_imm 255 ImmType.UnscaledOffset = true ∧
     compatible_imm (-256) ImmType.UnscaledOffset = false ∧
     compatible_imm 256 ImmType.UnscaledOffset = false) ∧
    (∀ imm : Int,
      (compatible_imm imm ImmType.OffsetByte = true ↔
        0 ≤ imm ∧ imm < 4096 * 1) ∧
      (compatible_imm imm ImmType.OffsetHWord = true ↔
        0 ≤ imm ∧ imm < 4096 * 2 ∧ imm % 2 = 0) ∧
      (compatible_imm imm ImmType.OffsetWord = true ↔
        0 ≤ imm ∧ imm < 4096 * 4 ∧ imm % 4 = 0) ∧
      (compatible_imm imm ImmType.OffsetDWord = true ↔
        0 ≤ imm ∧ imm < 4096 * 8 ∧ imm % 8 = 0)) := by
  refine ⟨by decide, by decide, by decide, fun imm => ?_⟩
  refine ⟨?_, ?_, ?_, ?_⟩ <;>
    simp only [compatible_imm, Bool.and_eq_true, decide_eq_true_eq, ge_iff_le,
      beq_iff_eq] <;> omega


/-! Helper evaluations of the immediate classifier at the literals reached
by the concrete scenarios below (kept as lemmas so the symbolic executions
need not unfold `compatible_imm`). -/

theorem compatible_imm_none_eval (imm : Int) :
    compatible_imm imm ImmType.None = false := rfl

theorem compatible_imm_noneXzr_eval (imm : Int) :
    compatible_imm imm ImmType.NoneXzr = false := rfl

theorem compatible_imm_48_dword : compatible_imm 48 ImmType.OffsetDWord = true := by
  decide

theorem compatible_imm_56_dword : compatible_imm 56 ImmType.OffsetDWord = true := by
  decide

theorem compatible_imm_4_bits12 : compatible_imm 4 ImmType.Bits12 = true := by
  decide

theorem compatible_imm_16_bits12 : compatible_imm 16 ImmType.Bits12 = true := by
  decide

theorem compatible_imm_0_word : compatible_imm 0 ImmType.OffsetWord = true := by
  decide

/-- C1: the claim states that under `need_check` the guard computes
`tmp_bound ← tmp_base + tmp_bound − value_size` before the `cmp`/`b.hi`.
The code is wrong: in the `Bits12` path the subtraction is emitted with
both register operands equal to `tmp_bound` and the `value_size` immediate
in the destination position, so no emitted instruction lowers the bound by
the access size (evaluated here at the failing input
`i32.load offset=0x10` with `need_check = true`, `value_size = 4`,
local memory descriptor at `vmctx+0x30`). -/
theorem C1_bound_subtract_code_bug :
    i32_load (.GPR .X9) ⟨0x10, 4⟩ (.GPR .X10) true false 0x30 100 {} =
      some ((), i32LoadFinal) ∧
    i32LoadFinal.buf = i32LoadFailingTrace ∧
    i32LoadFailingTrace[3]? =
      some (.Sub .S64 (.GPR .X6) (.GPR .X6) (.Imm32 4)) ∧
    (i32LoadFailingTrace.filter fun i =>
      match i with
      | .Sub _ _ _ _ => true
      | _ => false) = [.Sub .S64 (.GPR .X6) (.GPR .X6) (.Imm32 4)] ∧
    Instr.Sub .S64 (.GPR .X6) (.Imm32 4) (.GPR .X6) ∉ i32LoadFailingTrace := by
  refine ⟨?_, rfl, rfl, by decide, by decide⟩
  simp [i32_load, memory_op, memory_op_prelude, emit_relaxed_ldr64,
    emit_relaxed_ldr32, location_to_reg, move_location, move_location_reg_src,
    compatible_imm_none_eval, compatible_imm_48_dword, compatible_imm_56_dword,
    compatible_imm_4_bits12, compatible_imm_16_bits12, compatible_imm_0_word,
    acquire_temp_gpr, pick_temp_gpr, GPR_TEMP_REGS, release_gpr, releaseAll,
    emitInstr, getOffset, mark_address_range_with_trap_code,
    mark_instruction_address_end, trapInsert, emit_relaxed_binop,
    get_vmctx_reg, Instr.width, eraseFirst, List.find?, List.range',
    i32LoadFinal, i32LoadFailingTrace]

/-- C3 counterexample: for `i32.load offset=0x10 align=4` from X9 with a
local memory at `vmctx+0x30`, the emitted sequence is *not* the claimed
one: a `b.cs` carry branch follows the `adds` (it is emitted whenever the
Wasm offset is nonzero, regardless of `Bits12`), and no instruction
computes `bound − 4` (see C1). -/
theorem C3_counterexample :
    i32_load (.GPR .X9) ⟨0x10, 4⟩ (.GPR .X10) true false 0x30 100 {} =
      some ((), i32LoadFinal) ∧
    i32LoadFinal.buf ≠ i32LoadClaimedTrace ∧
    Instr.Bcond .Cs 100 ∈ i32LoadFinal.buf ∧
    Instr.Sub .S64 (.GPR .X6) (.Imm32 4) (.GPR .X6) ∉ i32LoadFinal.buf := by
  refine ⟨?_, by decide, by decide, by decide⟩
  simp [i32_load, memory_op, memory_op_prelude, emit_relaxed_ldr64,
    emit_relaxed_ldr32, location_to_reg, move_location, move_location_reg_src,
    compatible_imm_none_eval, compatible_imm_48_dword, compatible_imm_56_dword,
    compatible_imm_4_bits12, compatible_imm_16_bits12, compatible_imm_0_word,
    acquire_temp_gpr, pick_temp_gpr, GPR_TEMP_REGS, release_gpr, releaseAll,
    emitInstr, getOffset, mark_address_range_with_trap_code,
    mark_instruction_address_end, trapInsert, emit_relaxed_binop,
    get_vmctx_reg, Instr.width, eraseFirst, List.find?, List.range',
    i32LoadFinal, i32LoadFailingTrace]

/-- C3 amended: the scenario emits exactly `i32LoadFailingTrace` — base
load `[X28+0x30]`, bound load `[X28+0x38]`, `bound += base`, the
bound-adjust `sub` with `(bound, bound)` as register operands and the `#4`
immediate in destination position (a code slip, see C1), `mov w8, w9`,
`adds #0x10` **followed by a `b.cs` carry branch**, `addr += base`,
`cmp bound, addr`, `b.hi`, then the single guarded `ldr`, whose 4-byte
range `[40, 44)` is trap-tagged `HeapAccessOutOfBounds` and recorded in
the address map. -/
theorem C3_amended_sequence :
    i32_load (.GPR .X9) ⟨0x10, 4⟩ (.GPR .X10) true false 0x30 100 {} =
      some ((), i32LoadFinal) ∧
    i32LoadFinal.buf = i32LoadFailingTrace ∧
    i32LoadFinal.off = 44 ∧
    trapLookup i32LoadFinal.trap 40 = some .HeapAccessOutOfBounds ∧
    trapLookup i32LoadFinal.trap 41 = some .HeapAccessOutOfBounds ∧
    trapLookup i32LoadFinal.trap 42 = some .HeapAccessOutOfBounds ∧
    trapLookup i32LoadFinal.trap 43 = some .HeapAccessOutOfBounds ∧
    trapLookup i32LoadFinal.trap 39 = none ∧
    i32LoadFinal.addrMap = [(0, 40, 4)] := by
  refine ⟨?_, rfl, rfl, by decide, by decide, by decide, by decide, by decide, rfl⟩
  simp [i32_load, memory_op, memory_op_prelude, emit_relaxed_ldr64,
    emit_relaxed_ldr32, location_to_reg, move_location, move_location_reg_src,
    compatible_imm_none_eval, compatible_imm_48_dword, compatible_imm_56_dword,
    compatible_imm_4_bits12, compatible_imm_16_bits12, compatible_imm_0_word,
    acquire_temp_gpr, pick_temp_gpr, GPR_TEMP_REGS, release_gpr, releaseAll,
    emitInstr, getOffset, mark_address_range_with_trap_code,
    mark_instruction_address_end, trapInsert, emit_relaxed_binop,
    get_vmctx_reg, Instr.width, eraseFirst, List.find?, List.range',
    i32LoadFinal, i32LoadFailingTrace]

/-- C7 counterexample: with used callee-saved set `{X19, X20, X21}`,
`push_used_gpr` does *not* emit the claimed sequence: the XZR pad is
pushed first (the second emitted instruction already stores XZR), not
last, and only two `sub sp, sp, #16` are emitted — the claimed sequence
contains three, which would adjust SP by 48, inconsistent with the
returned adjustment of 32. -/
theorem C7_counterexample :
    push_used_gpr pushUsedGprStart = some (32, pushUsedGprFinal) ∧
    pushUsedGprFinal.buf ≠ pushUsedGprClaimedTrace ∧
    pushUsedGprFinal.buf[1]? = some (.Stur .S64 (.GPR .XzrSp) .XzrSp 8) ∧
    spDelta pushUsedGprClaimedTrace = -48 := by
  refine ⟨?_, by decide, rfl, by decide⟩
  simp [push_used_gpr, pushAllRegs, emit_push, get_used_gprs, getPushed,
    setPushed, emitInstr, Instr.width, pushUsedGprStart, pushUsedGprFinal,
    pushUsedGprActualTrace]

/-- C7 amended: with used set `{X19, X20, X21}` (odd count), the XZR pad
is pushed *first*: `sub sp, sp, #16; stur xzr, [sp, #8]; stur x19,
[sp, #0]; sub sp, sp, #16; stur x20, [sp, #8]; stur x21, [sp, #0]`; the
total emitted SP adjustment is 32 bytes downward, parity returns to even,
and the returned adjustment is 32. -/
theorem C7_amended :
    push_used_gpr pushUsedGprStart = some (32, pushUsedGprFinal) ∧
    pushUsedGprFinal.buf = pushUsedGprActualTrace ∧
    spDelta pushUsedGprFinal.buf = -32 ∧
    pushUsedGprFinal.pushed = false := by
  refine ⟨?_, rfl, by decide, rfl⟩
  simp [push_used_gpr, pushAllRegs, emit_push, get_used_gprs, getPushed,
    setPushed, emitInstr, Instr.width, pushUsedGprStart, pushUsedGprFinal,
    pushUsedGprActualTrace]

/-- C9 counterexample: `emit_relaxed_sign_extension` is implemented — on a
register-to-register input it succeeds (emitting `sxtb`) instead of
failing as "unimplemented", refuting the claim that every listed helper
fails fatally for every input. -/
theorem C9_counterexample :
    ¬ emit_relaxed_sign_extension .S8 (.GPR .X1) .S32 (.GPR .X2) {} = none := by
  simp [emit_relaxed_sign_extension, location_to_reg, emitInstr, releaseAll]

/-- C9 amended: every listed unimplemented surface — atomic memory
operations, float→integer conversions (including `trunc_sat` via the `sat`
flag), `trunc`/`ceil`/`floor`/`nearest`, the zero-extension helper and NaN
canonicalisation — fails fatally on every input; the sign-extension
helper, however, is implemented (here it emits `sxtb`). -/
theorem C9_amended_unimplemented_surfaces :
    (∀ a m r nc im o l s, i32_atomic_load a m r nc im o l s = none) ∧
    (∀ v m t nc im o l s, i32_atomic_save v m t nc im o l s = none) ∧
    (∀ a m r nc im o l s, i64_atomic_load a m r nc im o l s = none) ∧
    (∀ x t m r nc im o l s, i32_atomic_add x t m r nc im o l s = none) ∧
    (∀ a r sg st s, convert_i32_f32 a r sg st s = none) ∧
    (∀ a r sg st s, convert_i64_f64 a r sg st s = none) ∧
    (∀ a r sg st s, convert_i32_f64 a r sg st s = none) ∧
    (∀ a r sg st s, convert_i64_f32 a r sg st s = none) ∧
    (∀ a r s, f32_trunc a r s = none) ∧
    (∀ a r s, f32_ceil a r s = none) ∧
    (∀ a r s, f32_floor a r s = none) ∧
    (∀ a r s, f32_nearest a r s = none) ∧
    (∀ a r s, f64_trunc a r s = none) ∧
    (∀ a r s, f64_ceil a r s = none) ∧
    (∀ a r s, f64_floor a r s = none) ∧
    (∀ a r s, f64_nearest a r s = none) ∧
    (∀ sz i o s, canonicalize_nan sz i o s = none) ∧
    (∀ a b c d s, emit_relaxed_zero_extension a b c d s = none) ∧
    ∃ s, emit_relaxed_sign_extension .S8 (.GPR .X1) .S32 (.GPR .X2) {} =
        some ((), s) ∧
      s.buf = [.Sxtb .S32 (.GPR .X1) (.GPR .X2)] := by
  refine ⟨?_, ?_, ?_, ?_, ?_, ?_, ?_, ?_, ?_, ?_, ?_, ?_, ?_, ?_, ?_, ?_, ?_, ?_,
    ⟨{ buf := [.Sxtb .S32 (.GPR .X1) (.GPR .X2)], off := 4 }, ?_, rfl⟩⟩ <;>
    simp [i32_atomic_load, i32_atomic_save, i64_atomic_load, i32_atomic_add,
      convert_i32_f32, convert_i64_f64, convert_i32_f64, convert_i64_f32,
      f32_trunc, f32_ceil, f32_floor, f32_nearest, f64_trunc, f64_ceil,
      f64_floor, f64_nearest, canonicalize_nan, emit_relaxed_zero_extension,
      emit_relaxed_sign_extension, location_to_reg, emitInstr, releaseAll,
      Instr.width, mfail]

/-- C6: from any machine state (either parity), `emit_push(S64, R)`
immediately followed by `emit_pop(S64, R)` succeeds, restores the `pushed`
parity flag, and the SP adjustments emitted by the pair cancel to a net of
zero. -/
theorem C6_push_pop_restores (s : Machine) (R : GPR) :
    ∃ s₂ : Machine,
      (emit_push .S64 (.GPR R) >>= fun _ => emit_pop .S64 (.GPR R)) s =
        some ((), s₂) ∧
      s₂.pushed = s.pushed ∧
      spDelta (s₂.buf.drop s.buf.length) = 0 := by
  by_cases hp : s.pushed
  · refine ⟨{ s with
        buf := s.buf ++ [.Stur .S64 (.GPR R) .XzrSp 0, .Ldur .S64 (.GPR R) .XzrSp 0],
        off := s.off + 4 + 4, pushed := true }, ?_, ?_, ?_⟩
    · simp [emit_push, emit_pop, getPushed, setPushed, emitInstr, hp, Instr.width]
    · simp [hp]
    · simp [spDelta, List.drop_left]
  · refine ⟨{ s with
        buf := s.buf ++
          [.Sub .S64 (.GPR .XzrSp) (.Imm8 16) (.GPR .XzrSp),
           .Stur .S64 (.GPR R) .XzrSp 8,
           .Ldur .S64 (.GPR R) .XzrSp 8,
           .Add .S64 (.GPR .XzrSp) (.Imm8 16) (.GPR .XzrSp)],
        off := s.off + 4 + 4 + 4 + 4, pushed := false }, ?_, ?_, ?_⟩
    · simp [emit_push, emit_pop, getPushed, setPushed, emitInstr, hp, Instr.width]
    · simp [hp]
    · simp [spDelta, List.drop_left]

/-- The caller-supplied trap labels 100/101 are not bound in the `i32.div_s`
trace: branching to them exits the emitted block. -/
theorem gotoLabel_sdiv32_100 : gotoLabel sdiv32Trace 100 = none := rfl

theorem gotoLabel_sdiv32_101 : gotoLabel sdiv32Trace 101 = none := rfl

/-- The internal no-overflow label is bound immediately before the `sdiv`. -/
theorem gotoLabel_sdiv32_0 : gotoLabel sdiv32Trace 0 = some 7 := rfl

theorem sdiv32Trace_at0 : sdiv32Trace[0]? = some (.Cbz .S32 (.GPR .X10) 100) := rfl

theorem sdiv32Trace_at1 : sdiv32Trace[1]? = some (.MovImm (.GPR .X8) 0x80000000) := rfl

theorem sdiv32Trace_at2 : sdiv32Trace[2]? = some (.Cmp .S32 (.GPR .X8) (.GPR .X9)) := rfl

theorem sdiv32Trace_at3 : sdiv32Trace[3]? = some (.Bcond .Ne 0) := rfl

theorem sdiv32Trace_at4 : sdiv32Trace[4]? = some (.Movn .S32 (.GPR .X8) 0) := rfl

theorem sdiv32Trace_at5 : sdiv32Trace[5]? = some (.Cmp .S32 (.GPR .X8) (.GPR .X10)) := rfl

theorem sdiv32Trace_at6 : sdiv32Trace[6]? = some (.Bcond .Eq 101) := rfl

theorem sdiv32Trace_at7 : sdiv32Trace[7]? = some (.LabelDef 0) := rfl

theorem sdiv32Trace_at8 : sdiv32Trace[8]? = some (.Sdiv .S32 (.GPR .X9) (.GPR .X10) (.GPR .X11)) := rfl

theorem sdiv32Trace_at9 : sdiv32Trace[9]? = none := rfl

/-- Symbolic execution of the `i32.div_s` trace: the outcome and the list
of executed instructions as a decision tree over the (32-bit truncated)
dividend and divisor. -/
theorem sdiv32Run_eval (w9 w10 : Nat) :
    sdiv32Run w9 w10 =
      if w10 % 4294967296 = 0 then
        (.exitTo 100, [.Cbz .S32 (.GPR .X10) 100])
      else
        if 2147483648 = w9 % 4294967296 then
          if 4294967295 = w10 % 4294967296 then
            (.exitTo 101,
              [.Cbz .S32 (.GPR .X10) 100, .MovImm (.GPR .X8) 2147483648,
               .Cmp .S32 (.GPR .X8) (.GPR .X9), .Bcond .Ne 0,
               .Movn .S32 (.GPR .X8) 0, .Cmp .S32 (.GPR .X8) (.GPR .X10),
               .Bcond .Eq 101])
          else
            (.fellOff,
              [.Cbz .S32 (.GPR .X10) 100, .MovImm (.GPR .X8) 2147483648,
               .Cmp .S32 (.GPR .X8) (.GPR .X9), .Bcond .Ne 0,
               .Movn .S32 (.GPR .X8) 0, .Cmp .S32 (.GPR .X8) (.GPR .X10),
               .Bcond .Eq 101, .LabelDef 0,
               .Sdiv .S32 (.GPR .X9) (.GPR .X10) (.GPR .X11)])
        else
          (.fellOff,
            [.Cbz .S32 (.GPR .X10) 100, .MovImm (.GPR .X8) 2147483648,
             .Cmp .S32 (.GPR .X8) (.GPR .X9), .Bcond .Ne 0, .LabelDef 0,
             .Sdiv .S32 (.GPR .X9) (.GPR .X10) (.GPR .X11)]) := by
  unfold sdiv32Run
  repeat
    rw [run.eq_def]
    simp only [sdiv32Trace_at0, sdiv32Trace_at1, sdiv32Trace_at2,
      sdiv32Trace_at3, sdiv32Trace_at4, sdiv32Trace_at5, sdiv32Trace_at6,
      sdiv32Trace_at7, sdiv32Trace_at8, sdiv32Trace_at9, readLoc, writeLoc,
      RegFile.set, RegFile.get, szBits, gotoLabel_sdiv32_100,
      gotoLabel_sdiv32_101, gotoLabel_sdiv32_0, evalCond, reduceIte,
      reduceCtorEq, Nat.reducePow, Nat.reduceMod, Nat.reduceAdd,
      Nat.reduceSub, decide_True, decide_False, ne_eq]
  simp only [List.nil_append, List.cons_append, List.singleton_append,
    List.append_assoc, decide_eq_true_eq, ite_not]

set_option maxHeartbeats 1000000 in
/-- C2: `emit_binop_sdiv32` first branches to `integer_division_by_zero`
when the divisor is zero (before any division executes); the divisor is
compared against −1 (with a branch to `integer_overflow` on equality) only
when the dividend equals `0x80000000`; and the `sdiv` byte offset (28) is
recorded in the trap table with `IntegerOverflow`.  The first half is the
emitted trace and its trap-table row; the second half executes the trace:
with a zero divisor it exits to label 100 with no division executed, with
dividend `0x80000000` and divisor `0xFFFFFFFF` it exits to label 101 with
no division executed, otherwise it executes the `sdiv` exactly once, and
the divisor-compare instruction is executed only if the dividend is
`0x80000000`. -/
theorem C2_sdiv32_div_checks :
    (emit_binop_sdiv32 (.GPR .X9) (.GPR .X10) (.GPR .X11) 100 101 {} =
        some (28, sdiv32Final) ∧
      sdiv32Final.buf = sdiv32Trace ∧
      sdiv32Trace[8]? = some (.Sdiv .S32 (.GPR .X9) (.GPR .X10) (.GPR .X11)) ∧
      ((sdiv32Trace.take 8).map Instr.width).sum = 28 ∧
      trapLookup sdiv32Final.trap 28 = some .IntegerOverflow) ∧
    ∀ w9 w10 : Nat, w9 < 2 ^ 32 → w10 < 2 ^ 32 →
      (w10 = 0 →
        (sdiv32Run w9 w10).1 = .exitTo 100 ∧ countDiv (sdiv32Run w9 w10).2 = 0) ∧
      (w10 ≠ 0 → w9 = 0x80000000 → w10 = 0xFFFFFFFF →
        (sdiv32Run w9 w10).1 = .exitTo 101 ∧ countDiv (sdiv32Run w9 w10).2 = 0) ∧
      (w10 ≠ 0 → ¬(w9 = 0x80000000 ∧ w10 = 0xFFFFFFFF) →
        (sdiv32Run w9 w10).1 = .fellOff ∧ countDiv (sdiv32Run w9 w10).2 = 1) ∧
      (Instr.Cmp .S32 (.GPR .X8) (.GPR .X10) ∈ (sdiv32Run w9 w10).2 →
        w9 = 0x80000000) := by
  constructor
  · refine ⟨?_, rfl, rfl, by decide, by decide⟩
    simp only [emit_binop_sdiv32, location_to_reg, compatible_imm_none_eval,
      acquire_temp_gpr, pick_temp_gpr, GPR_TEMP_REGS, release_gpr, releaseAll,
      emitInstr, newLabel, mark_instruction_with_trap_code, trapInsert,
      Instr.width, eraseFirst, List.find?, run_bind, run_pure, sdiv32Final,
      sdiv32Trace]
    simp [acquire_temp_gpr, pick_temp_gpr, GPR_TEMP_REGS, release_gpr,
      releaseAll, emitInstr, eraseFirst, List.find?, Instr.width,
      sdiv32Final, sdiv32Trace]
  · intro w9 w10 h9 h10
    have hrun := sdiv32Run_eval w9 w10
    simp only [Nat.reducePow] at h9 h10
    rw [Nat.mod_eq_of_lt h9, Nat.mod_eq_of_lt h10] at hrun
    refine ⟨?_, ?_, ?_, ?_⟩
    · intro hz
      rw [hrun]
      simp [hz, countDiv]
    · intro _ hmin hneg
      subst hmin; subst hneg
      rw [hrun]
      simp [countDiv]
    · intro hz hne
      by_cases hmin : w9 = 2147483648
      · subst hmin
        have hneg : ¬((4294967295 : Nat) = w10) := by
          intro h
          exact hne ⟨rfl, h.symm⟩
        rw [hrun]
        simp [hz, hneg, countDiv]
      · have hmin' : ¬((2147483648 : Nat) = w9) := fun h => hmin h.symm
        rw [hrun]
        simp [hz, hmin', countDiv]
    · by_cases hmin : (2147483648 : Nat) = w9
      · exact fun _ => hmin.symm
      · intro hmem
        rw [hrun] at hmem
        by_cases hz : w10 = 0
        · simp [hz] at hmem
        · simp [hz, hmin] at hmem

/-- Witness for C2 at concrete inputs: dividend 5, divisor 0 exits through
the division-by-zero label without executing a division. -/
theorem C2_witness :
    (5 : Nat) < 2 ^ 32 ∧ (0 : Nat) < 2 ^ 32 ∧
    ((sdiv32Run 5 0).1 = .exitTo 100 ∧ countDiv (sdiv32Run 5 0).2 = 0) :=
  ⟨by decide, by decide,
    (C2_sdiv32_div_checks.2 5 0 (by decide) (by decide)).1 rfl⟩

/-- C10: the unsigned divisions and both 32-bit remainders emit a `cbz` on
the divisor to `integer_division_by_zero` and no MIN/−1 overflow check
(no `cmp`, `movn` or conditional branch at all), yet each still records
the byte offset of its `udiv`/`sdiv` in the trap table with
`IntegerOverflow` and returns that offset to the caller — including the
unsigned operations, where the overflow cannot occur.  Stated for register
operands with a destination distinct from both sources. -/
theorem C10_div_rem_overflow_rows (s : Machine) (ra rb rd : GPR)
    (hra : rd ≠ ra) (hrb : rd ≠ rb) (div0 ovf : Label) :
    (emit_binop_udiv32 (.GPR ra) (.GPR rb) (.GPR rd) div0 ovf s =
        some (s.off + 4, { s with
          buf := s.buf ++
            [.Cbz .S32 (.GPR rb) div0, .Udiv .S32 (.GPR ra) (.GPR rb) (.GPR rd)],
          off := s.off + 4 + 4,
          trap := (s.off + 4, .IntegerOverflow) :: s.trap }) ∧
      trapLookup ((s.off + 4, TrapCode.IntegerOverflow) :: s.trap) (s.off + 4) =
        some .IntegerOverflow ∧
      countOverflowCheck
        [.Cbz .S32 (.GPR rb) div0, .Udiv .S32 (.GPR ra) (.GPR rb) (.GPR rd)] = 0) ∧
    (emit_binop_udiv64 (.GPR ra) (.GPR rb) (.GPR rd) div0 ovf s =
        some (s.off + 4, { s with
          buf := s.buf ++
            [.Cbz .S64 (.GPR rb) div0, .Udiv .S64 (.GPR ra) (.GPR rb) (.GPR rd)],
          off := s.off + 4 + 4,
          trap := (s.off + 4, .IntegerOverflow) :: s.trap }) ∧
      countOverflowCheck
        [.Cbz .S64 (.GPR rb) div0, .Udiv .S64 (.GPR ra) (.GPR rb) (.GPR rd)] = 0) ∧
    (emit_binop_urem32 (.GPR ra) (.GPR rb) (.GPR rd) div0 ovf s =
        some (s.off + 4, { s with
          buf := s.buf ++
            [.Cbz .S32 (.GPR rb) div0, .Udiv .S32 (.GPR ra) (.GPR rb) (.GPR rd),
             .Msub .S32 (.GPR rd) (.GPR rb) (.GPR ra) (.GPR rd)],
          off := s.off + 4 + 4 + 4,
          trap := (s.off + 4, .IntegerOverflow) :: s.trap }) ∧
      countOverflowCheck
        [.Cbz .S32 (.GPR rb) div0, .Udiv .S32 (.GPR ra) (.GPR rb) (.GPR rd),
         .Msub .S32 (.GPR rd) (.GPR rb) (.GPR ra) (.GPR rd)] = 0) ∧
    (emit_binop_srem32 (.GPR ra) (.GPR rb) (.GPR rd) div0 ovf s =
        some (s.off + 4, { s with
          buf := s.buf ++
            [.Cbz .S32 (.GPR rb) div0, .Sdiv .S32 (.GPR ra) (.GPR rb) (.GPR rd),
             .Msub .S32 (.GPR rd) (.GPR rb) (.GPR ra) (.GPR rd)],
          off := s.off + 4 + 4 + 4,
          trap := (s.off + 4, .IntegerOverflow) :: s.trap }) ∧
      countOverflowCheck
        [.Cbz .S32 (.GPR rb) div0, .Sdiv .S32 (.GPR ra) (.GPR rb) (.GPR rd),
         .Msub .S32 (.GPR rd) (.GPR rb) (.GPR ra) (.GPR rd)] = 0) := by
  refine ⟨⟨?_, ?_, ?_⟩, ⟨?_, ?_⟩, ⟨?_, ?_⟩, ⟨?_, ?_⟩⟩
  · simp [emit_binop_udiv32, location_to_reg, emitInstr,
      mark_instruction_with_trap_code, trapInsert, releaseAll, Instr.width]
  · simp [trapLookup]
  · simp [countOverflowCheck, List.countP, List.countP.go]
  · simp [emit_binop_udiv64, location_to_reg, emitInstr,
      mark_instruction_with_trap_code, trapInsert, releaseAll, Instr.width]
  · simp [countOverflowCheck, List.countP, List.countP.go]
  · simp [emit_binop_urem32, location_to_reg, emitInstr,
      mark_instruction_with_trap_code, trapInsert, releaseAll, Instr.width,
      hra, hrb]
  · simp [countOverflowCheck, List.countP, List.countP.go]
  · simp [emit_binop_srem32, location_to_reg, emitInstr,
      mark_instruction_with_trap_code, trapInsert, releaseAll, Instr.width,
      hra, hrb]
  · simp [countOverflowCheck, List.countP, List.countP.go]

/-- Witness for C10 at `X9 / X10 → X11` from a fresh machine. -/
theorem C10_witness :
    GPR.X11 ≠ GPR.X9 ∧ GPR.X11 ≠ GPR.X10 ∧
    emit_binop_udiv32 (.GPR .X9) (.GPR .X10) (.GPR .X11) 100 101
        ({} : Machine) =
      some (({} : Machine).off + 4, { ({} : Machine) with
        buf := ({} : Machine).buf ++
          [.Cbz .S32 (.GPR .X10) 100, .Udiv .S32 (.GPR .X9) (.GPR .X10) (.GPR .X11)],
        off := ({} : Machine).off + 4 + 4,
        trap := (({} : Machine).off + 4, .IntegerOverflow) :: ({} : Machine).trap }) :=
  ⟨by decide, by decide,
    (C10_div_rem_overflow_rows {} .X9 .X10 .X11 (by decide) (by decide)
      100 101).1.1⟩

/-- Inversion for the state-option bind. -/
theorem bind_eq_some {α β : Type} (x : M α) (f : α → M β) (s : Machine)
    (b : β) (s' : Machine) :
    (x >>= f) s = some (b, s') ↔
      ∃ a s₁, x s = some (a, s₁) ∧ f a s₁ = some (b, s') := by
  constructor
  · intro h
    rcases hx : x s with _ | ⟨a, s₁⟩
    · rw [run_bind, hx] at h
      cases h
    · rw [run_bind, hx] at h
      exact ⟨a, s₁, rfl, h⟩
  · rintro ⟨a, s₁, hx, hf⟩
    rw [run_bind, hx]
    exact hf

theorem bind_getOffset {β : Type} (f : Nat → M β) (s : Machine) :
    (getOffset >>= f) s = f s.off s := rfl

theorem trapLookup_trapInsert_self (t : List (Nat × TrapCode)) (k : Nat)
    (c : TrapCode) : trapLookup (trapInsert t k c) k = some c := by
  simp [trapLookup, trapInsert, List.find?]

theorem trapLookup_trapInsert_ne (t : List (Nat × TrapCode)) (k j : Nat)
    (c : TrapCode) (h : j ≠ k) :
    trapLookup (trapInsert t k c) j = trapLookup t j := by
  have hb : (k == j) = false := by
    simp only [beq_eq_false_iff_ne]
    exact Ne.symm h
  simp [trapLookup, trapInsert, List.find?, hb]

theorem trapLookup_foldl_insert_notin (l : List Nat)
    (t : List (Nat × TrapCode)) (c : TrapCode) (k : Nat) (hk : k ∉ l) :
    trapLookup (l.foldl (fun t i => trapInsert t i c) t) k = trapLookup t k := by
  induction l generalizing t with
  | nil => rfl
  | cons i l ih =>
      simp only [List.foldl_cons]
      rw [ih _ (fun hm => hk (List.mem_cons_of_mem _ hm))]
      exact trapLookup_trapInsert_ne _ _ _ _
        (fun he => hk (by rw [he]; exact List.mem_cons_self _ _))

theorem trapLookup_foldl_range_insert (n : Nat) (b k : Nat)
    (t : List (Nat × TrapCode)) (c : TrapCode) (h1 : b ≤ k) (h2 : k < b + n) :
    trapLookup ((List.range' b n).foldl (fun t i => trapInsert t i c) t) k =
      some c := by
  induction n generalizing b t with
  | zero => omega
  | succ n ih =>
      rw [List.range'_succ, List.foldl_cons]
      by_cases hk : k = b
      · subst hk
        rw [trapLookup_foldl_insert_notin _ _ _ _ ?_, trapLookup_trapInsert_self]
        intro hm
        rw [List.mem_range'] at hm
        omega
      · exact ih (b + 1) _ (by omega) (by omega)

/-- C4: for every memory-guarded emission that completes, every byte offset
in the range `[begin, end)` spanned by the caller's emission closure is
present in the final trap table mapped to `HeapAccessOutOfBounds`
(`begin`/`end` being the assembler offsets immediately around the
closure's run). -/
theorem C4_guard_range_trap_tagged
    (addr : Loc) (memarg : MemoryImmediate) (ca : Bool) (vs : Nat)
    (nc im : Bool) (off : Int) (oob : Label) (cb : GPR → M Unit)
    (s sf : Machine)
    (h : memory_op addr memarg ca vs nc im off oob cb s = some ((), sf)) :
    ∃ tmpa s₁ s₂,
      memory_op_prelude addr memarg ca vs nc im off oob s = some (tmpa, s₁) ∧
      cb tmpa s₁ = some ((), s₂) ∧
      ∀ i, s₁.off ≤ i → i < s₂.off →
        trapLookup sf.trap i = some TrapCode.HeapAccessOutOfBounds := by
  unfold memory_op at h
  rw [bind_eq_some] at h
  obtain ⟨tmpa, s₁, hp, h⟩ := h
  simp only [bind_getOffset] at h
  rw [bind_eq_some] at h
  obtain ⟨⟨⟩, s₂, hc, h⟩ := h
  simp only [bind_getOffset] at h
  rw [bind_eq_some] at h
  obtain ⟨⟨⟩, s₃, hm, h⟩ := h
  simp only [mark_address_range_with_trap_code, mark_instruction_address_end,
    Option.some.injEq, Prod.mk.injEq, true_and] at hm
  simp only [release_gpr, Option.ite_none_right_eq_some, Option.some.injEq,
    Prod.mk.injEq, true_and] at h
  obtain ⟨-, hval⟩ := h
  have hsf : sf = { s₃ with usedG := eraseFirst s₃.usedG tmpa } := hval.symm
  refine ⟨tmpa, s₁, s₂, hp, hc, ?_⟩
  intro i hi1 hi2
  rw [hsf]
  show trapLookup s₃.trap i = some TrapCode.HeapAccessOutOfBounds
  rw [← hm]
  show trapLookup
    ((List.range' s₁.off (s₂.off - s₁.off)).foldl
      (fun t j => trapInsert t j TrapCode.HeapAccessOutOfBounds) s₂.trap) i =
      some TrapCode.HeapAccessOutOfBounds
  exact trapLookup_foldl_range_insert _ _ _ _ _ hi1 (by omega)

/-- Witness for C4: the `i32.load offset=0x10` guard from a fresh machine;
its closure's byte range is `[40, 44)` and is tagged in the final trap
table. -/
theorem C4_witness :
    ∃ tmpa s₁ s₂,
      memory_op_prelude (.GPR .X9) ⟨0x10, 4⟩ false 4 true false 0x30 100 {} =
        some (tmpa, s₁) ∧
      (fun a => emit_relaxed_ldr32 .S32 (.GPR .X10) (.Memory a 0)) tmpa s₁ =
        some ((), s₂) ∧
      ∀ i, s₁.off ≤ i → i < s₂.off →
        trapLookup i32LoadFinal.trap i = some TrapCode.HeapAccessOutOfBounds :=
  C4_guard_range_trap_tagged (.GPR .X9) ⟨0x10, 4⟩ false 4 true false 0x30 100
    (fun a => emit_relaxed_ldr32 .S32 (.GPR .X10) (.Memory a 0)) {} i32LoadFinal
    (by
      simp [memory_op, memory_op_prelude, emit_relaxed_ldr64,
        emit_relaxed_ldr32, location_to_reg, move_location,
        move_location_reg_src, compatible_imm_none_eval, compatible_imm_48_dword,
        compatible_imm_56_dword, compatible_imm_4_bits12, compatible_imm_16_bits12,
        compatible_imm_0_word, acquire_temp_gpr, pick_temp_gpr, GPR_TEMP_REGS,
        release_gpr, releaseAll, emitInstr, getOffset,
        mark_address_range_with_trap_code, mark_instruction_address_end,
        trapInsert, emit_relaxed_binop, get_vmctx_reg, Instr.width, eraseFirst,
        List.find?, List.range', i32LoadFinal, i32LoadFailingTrace])


/-! Support for the temp-register discipline claim: how each primitive
changes the used-register sets. -/

theorem bind_pure_l {α β : Type} (a : α) (f : α → M β) (s : Machine) :
    ((pure a : M α) >>= f) s = f a s := rfl

theorem eraseFirst_append_cons (orig rest : List GPR) (t : GPR)
    (h : t ∉ orig) : eraseFirst (orig ++ t :: rest) t = orig ++ rest := by
  induction orig with
  | nil => simp [eraseFirst]
  | cons x xs ih =>
      have hx : ¬x = t := fun he => h (he ▸ List.mem_cons_self _ _)
      simp only [List.cons_append, eraseFirst, if_neg hx, List.append_eq]
      rw [ih (fun hm => h (List.mem_cons_of_mem _ hm))]

theorem pick_temp_gpr_fresh (s : Machine) (g : GPR)
    (h : pick_temp_gpr s = some g) : g ∉ s.usedG := by
  have := List.find?_some h
  exact of_decide_eq_true this

theorem acquire_temp_gpr_spec (s : Machine) (g : GPR) (s' : Machine)
    (h : acquire_temp_gpr s = some (g, s')) :
    s' = { s with usedG := s.usedG ++ [g] } ∧ g ∉ s.usedG := by
  unfold acquire_temp_gpr at h
  rcases hp : pick_temp_gpr s with _ | g'
  · rw [hp] at h
    cases h
  · rw [hp] at h
    simp only [Option.some.injEq, Prod.mk.injEq] at h
    obtain ⟨rfl, rfl⟩ := h
    exact ⟨rfl, pick_temp_gpr_fresh s _ hp⟩

theorem bind_emitInstr {β : Type} (i : Instr) (f : Unit → M β) (s : Machine) :
    (emitInstr i >>= f) s =
      f () { s with buf := s.buf ++ [i], off := s.off + i.width } := rfl

theorem bind_newLabel {β : Type} (f : Label → M β) (s : Machine) :
    (newLabel >>= f) s = f s.labelCnt { s with labelCnt := s.labelCnt + 1 } := rfl

theorem emitInstr_run (i : Instr) (s : Machine) :
    emitInstr i s =
      some ((), { s with buf := s.buf ++ [i], off := s.off + i.width }) := rfl

/-- What `location_to_reg` (with no `wanted` register) does to the temps
vector and the used sets: it appends the same fresh registers to both. -/
theorem location_to_reg_spec (sz : Size) (src : Loc) (temps : List GPR)
    (allow_imm : ImmType) (read_val : Bool) (s : Machine) (l : Loc)
    (ts' : List GPR) (s' : Machine)
    (h : location_to_reg sz src temps allow_imm read_val none s =
      some ((l, ts'), s')) :
    ∃ new, ts' = temps ++ new ∧ Extends s s' new := by
  cases src <;> simp only [location_to_reg] at h
  case GPR r =>
    simp only [run_pure, Option.some.injEq, Prod.mk.injEq] at h
    obtain ⟨⟨rfl, rfl⟩, rfl⟩ := h
    exact ⟨[], by simp, by simp, by simp, List.nodup_nil, rfl⟩
  case SIMD v =>
    simp only [run_pure, Option.some.injEq, Prod.mk.injEq] at h
    obtain ⟨⟨rfl, rfl⟩, rfl⟩ := h
    exact ⟨[], by simp, by simp, by simp, List.nodup_nil, rfl⟩
  case Imm8 val =>
    split at h
    · simp only [run_pure, Option.some.injEq, Prod.mk.injEq] at h
      obtain ⟨⟨rfl, rfl⟩, rfl⟩ := h
      exact ⟨[], by simp, by simp, by simp, List.nodup_nil, rfl⟩
    · split at h
      · simp only [run_pure, Option.some.injEq, Prod.mk.injEq] at h
        obtain ⟨⟨rfl, rfl⟩, rfl⟩ := h
        exact ⟨[], by simp, by simp, by simp, List.nodup_nil, rfl⟩
      · rw [bind_eq_some] at h
        obtain ⟨tmp, s₁, hacq, h⟩ := h
        obtain ⟨rfl, hfresh⟩ := acquire_temp_gpr_spec _ _ _ hacq
        rw [bind_emitInstr, run_pure] at h
        simp only [Option.some.injEq, Prod.mk.injEq] at h
        obtain ⟨⟨rfl, rfl⟩, rfl⟩ := h
        exact ⟨[tmp], rfl, rfl, by simpa using hfresh, List.nodup_singleton _, rfl⟩
  case Imm32 val =>
    split at h
    · simp only [run_pure, Option.some.injEq, Prod.mk.injEq] at h
      obtain ⟨⟨rfl, rfl⟩, rfl⟩ := h
      exact ⟨[], by simp, by simp, by simp, List.nodup_nil, rfl⟩
    · split at h
      · simp only [run_pure, Option.some.injEq, Prod.mk.injEq] at h
        obtain ⟨⟨rfl, rfl⟩, rfl⟩ := h
        exact ⟨[], by simp, by simp, by simp, List.nodup_nil, rfl⟩
      · rw [bind_eq_some] at h
        obtain ⟨tmp, s₁, hacq, h⟩ := h
        obtain ⟨rfl, hfresh⟩ := acquire_temp_gpr_spec _ _ _ hacq
        rw [bind_emitInstr, run_pure] at h
        simp only [Option.some.injEq, Prod.mk.injEq] at h
        obtain ⟨⟨rfl, rfl⟩, rfl⟩ := h
        exact ⟨[tmp], rfl, rfl, by simpa using hfresh, List.nodup_singleton _, rfl⟩
  case Imm64 val =>
    split at h
    · simp only [run_pure, Option.some.injEq, Prod.mk.injEq] at h
      obtain ⟨⟨rfl, rfl⟩, rfl⟩ := h
      exact ⟨[], by simp, by simp, by simp, List.nodup_nil, rfl⟩
    · split at h
      · simp only [run_pure, Option.some.injEq, Prod.mk.injEq] at h
        obtain ⟨⟨rfl, rfl⟩, rfl⟩ := h
        exact ⟨[], by simp, by simp, by simp, List.nodup_nil, rfl⟩
      · rw [bind_eq_some] at h
        obtain ⟨tmp, s₁, hacq, h⟩ := h
        obtain ⟨rfl, hfresh⟩ := acquire_temp_gpr_spec _ _ _ hacq
        rw [bind_emitInstr, run_pure] at h
        simp only [Option.some.injEq, Prod.mk.injEq] at h
        obtain ⟨⟨rfl, rfl⟩, rfl⟩ := h
        exact ⟨[tmp], rfl, rfl, by simpa using hfresh, List.nodup_singleton _, rfl⟩
  case Memory reg val =>
    rw [bind_eq_some] at h
    obtain ⟨t, s₁, hacq, h⟩ := h
    obtain ⟨rfl, hfresh⟩ := acquire_temp_gpr_spec _ _ _ hacq
    simp only [bind_pure_l] at h
    refine ⟨[t], ?_⟩
    repeat' split at h
    all_goals
      first
      | exact Option.noConfusion h
      | · simp only [bind_emitInstr, bind_pure_l, run_pure, Option.some.injEq,
          Prod.mk.injEq] at h
          obtain ⟨⟨rfl, rfl⟩, rfl⟩ := h
          exact ⟨rfl, rfl, by simpa using hfresh, List.nodup_singleton _, rfl⟩
  case Memory2 b i m d =>
    cases h

theorem releaseAll_run (new : List GPR) : ∀ (s : Machine) (orig : List GPR),
    s.usedG = orig ++ new → (∀ g ∈ new, g ∉ orig) → new.Nodup →
    releaseAll new s = some ((), { s with usedG := orig }) := by
  induction new with
  | nil =>
      intro s orig hG _ _
      have h2 : orig = s.usedG := by simpa using hG.symm
      subst h2
      rfl
  | cons t rest ih =>
      intro s orig hG hf hn
      have htO : t ∉ orig := hf t (List.mem_cons_self _ _)
      have step : release_gpr t s =
          some ((), { s with usedG := orig ++ rest }) := by
        rw [release_gpr,
          if_pos (by rw [hG]; exact List.mem_append_right _ (List.mem_cons_self _ _)),
          hG, eraseFirst_append_cons _ _ _ htO]
      show (release_gpr t >>= fun _ => releaseAll rest) s = _
      rw [run_bind, step]
      exact ih { s with usedG := orig ++ rest } orig rfl
        (fun g hg => hf g (List.mem_cons_of_mem _ hg)) (List.Nodup.of_cons hn)

theorem pure_preserves {α : Type} (a : α) : PreservesUsed (pure a : M α) := by
  intro s b s' h
  rw [run_pure] at h
  simp only [Option.some.injEq, Prod.mk.injEq] at h
  obtain ⟨-, rfl⟩ := h
  exact ⟨rfl, rfl⟩

theorem emitInstr_preserves (i : Instr) : PreservesUsed (emitInstr i) := by
  intro s b s' h
  rw [emitInstr_run] at h
  simp only [Option.some.injEq, Prod.mk.injEq] at h
  obtain ⟨-, rfl⟩ := h
  exact ⟨rfl, rfl⟩

theorem bind_preserves {α β : Type} {m : M α} {f : α → M β}
    (hm : PreservesUsed m) (hf : ∀ a, PreservesUsed (f a)) :
    PreservesUsed (m >>= f) := by
  intro s b s' h
  rw [bind_eq_some] at h
  obtain ⟨a, s₁, h₁, h₂⟩ := h
  obtain ⟨hG1, hS1⟩ := hm s a s₁ h₁
  obtain ⟨hG2, hS2⟩ := hf a s₁ b s' h₂
  exact ⟨hG2.trans hG1, hS2.trans hS1⟩

theorem mark_range_preserves (c : TrapCode) (b e : Nat) :
    PreservesUsed (mark_address_range_with_trap_code c b e) := by
  intro s x s' h
  simp only [mark_address_range_with_trap_code, mark_instruction_address_end,
    Option.some.injEq, Prod.mk.injEq] at h
  obtain ⟨-, rfl⟩ := h
  exact ⟨rfl, rfl⟩

theorem extends_nil (s : Machine) : Extends s s [] :=
  ⟨(List.append_nil _).symm, by simp, List.nodup_nil, rfl⟩

theorem extends_trans {s s₁ s₂ : Machine} {n₁ n₂ : List GPR}
    (h₁ : Extends s s₁ n₁) (h₂ : Extends s₁ s₂ n₂) :
    Extends s s₂ (n₁ ++ n₂) := by
  obtain ⟨hG₁, hf₁, hn₁, hS₁⟩ := h₁
  obtain ⟨hG₂, hf₂, hn₂, hS₂⟩ := h₂
  refine ⟨by rw [hG₂, hG₁, List.append_assoc], ?_, ?_, hS₂.trans hS₁⟩
  · intro g hg
    rcases List.mem_append.1 hg with hm | hm
    · exact hf₁ g hm
    · exact fun hO => hf₂ g hm (by rw [hG₁]; exact List.mem_append_left _ hO)
  · rw [List.nodup_append]
    exact ⟨hn₁, hn₂, fun g hg₁ hg₂ =>
      hf₂ g hg₂ (by rw [hG₁]; exact List.mem_append_right _ hg₁)⟩

theorem extends_preserves {α : Type} {m : M α} (hm : PreservesUsed m)
    {s s₁ s₂ : Machine} {n : List GPR} {a : α}
    (h : m s₁ = some (a, s₂)) (he : Extends s s₁ n) : Extends s s₂ n := by
  obtain ⟨hG, hS⟩ := hm s₁ a s₂ h
  exact ⟨hG.trans he.1, he.2.1, he.2.2.1, hS.trans he.2.2.2⟩

theorem extends_acquire {s s₂ s' : Machine} {n : List GPR} {t : GPR}
    (h : acquire_temp_gpr s₂ = some (t, s')) (he : Extends s s₂ n) :
    Extends s s' (n ++ [t]) := by
  obtain ⟨rfl, hfresh⟩ := acquire_temp_gpr_spec _ _ _ h
  refine ⟨by rw [he.1, List.append_assoc], ?_, ?_, he.2.2.2⟩
  · intro g hg
    rcases List.mem_append.1 hg with hm | hm
    · exact he.2.1 g hm
    · rcases List.mem_singleton.1 hm with rfl
      exact fun hO => hfresh (by rw [he.1]; exact List.mem_append_left _ hO)
  · rw [List.nodup_append]
    refine ⟨he.2.2.1, List.nodup_singleton _, fun g hg₁ hg₂ => ?_⟩
    rcases List.mem_singleton.1 hg₂ with rfl
    exact hfresh (by rw [he.1]; exact List.mem_append_right _ hg₁)

theorem release_last (s : Machine) (orig : List GPR) (t : GPR) (a : Unit)
    (s' : Machine) (hG : s.usedG = orig ++ [t]) (hfresh : t ∉ orig)
    (h : release_gpr t s = some (a, s')) :
    s' = { s with usedG := orig } := by
  rw [release_gpr,
    if_pos (by rw [hG]; exact List.mem_append_right _ (List.mem_cons_self _ _))] at h
  simp only [Option.some.injEq, Prod.mk.injEq] at h
  obtain ⟨-, rfl⟩ := h
  have he : eraseFirst s.usedG t = orig := by
    rw [hG, eraseFirst_append_cons _ _ _ hfresh, List.append_nil]
  rw [he]

theorem extends_release {s s₂ s' : Machine} {n : List GPR} {t : GPR} {a : Unit}
    (h : release_gpr t s₂ = some (a, s')) (he : Extends s s₂ (n ++ [t])) :
    Extends s s' n := by
  have hnd := he.2.2.1
  rw [List.nodup_append] at hnd
  have hfr : t ∉ s.usedG ++ n := by
    intro hm
    rcases List.mem_append.1 hm with hm | hm
    · exact he.2.1 t (List.mem_append_right _ (List.mem_cons_self _ _)) hm
    · exact hnd.2.2 hm (List.mem_cons_self _ _)
  have hs' : s' = { s₂ with usedG := s.usedG ++ n } :=
    release_last s₂ (s.usedG ++ n) t a s' (by rw [he.1, List.append_assoc]) hfr h
  subst hs'
  exact ⟨rfl, fun g hg => he.2.1 g (List.mem_append_left _ hg), hnd.1, he.2.2.2⟩

theorem releaseAll_extends {s s₂ : Machine} {n : List GPR}
    (he : Extends s s₂ n) :
    releaseAll n s₂ = some ((), { s₂ with usedG := s.usedG }) :=
  releaseAll_run n s₂ s.usedG he.1 he.2.1 he.2.2.1

theorem move_location_reg_src_preserves (sz : Size) (src dst : Loc) :
    PreservesUsed (move_location_reg_src sz src dst) := by
  intro s a s' h
  cases dst <;> simp only [move_location_reg_src] at h
  case GPR r => exact emitInstr_preserves _ s a s' h
  case SIMD v => exact emitInstr_preserves _ s a s' h
  case Memory addr offs =>
    repeat' split at h
    all_goals
      first
      | exact Option.noConfusion h
      | · simp only [bind_emitInstr, emitInstr_run, Option.some.injEq,
            Prod.mk.injEq] at h
          obtain ⟨-, rfl⟩ := h
          exact ⟨rfl, rfl⟩
  all_goals exact Option.noConfusion h

theorem move_location_preserves (sz : Size) (src dst : Loc) :
    PreservesUsed (move_location sz src dst) := by
  intro s a s' h
  cases src <;> simp only [move_location] at h
  case GPR r => exact move_location_reg_src_preserves _ _ _ s a s' h
  case SIMD v => exact move_location_reg_src_preserves _ _ _ s a s' h
  case Imm8 val =>
    cases dst <;>
      first
      | exact Option.noConfusion h
      | exact emitInstr_preserves _ s a s' h
  case Imm32 val =>
    cases dst <;>
      first
      | exact Option.noConfusion h
      | exact emitInstr_preserves _ s a s' h
  case Imm64 val =>
    cases dst <;>
      first
      | exact Option.noConfusion h
      | exact emitInstr_preserves _ s a s' h
  case Memory addr offs =>
    cases dst
    case GPR r =>
      dsimp only at h
      repeat' split at h
      all_goals
        first
        | exact Option.noConfusion h
        | · simp only [bind_emitInstr, emitInstr_run, Option.some.injEq,
              Prod.mk.injEq] at h
            obtain ⟨-, rfl⟩ := h
            exact ⟨rfl, rfl⟩
    case SIMD v =>
      dsimp only at h
      repeat' split at h
      all_goals
        first
        | exact Option.noConfusion h
        | · simp only [bind_emitInstr, emitInstr_run, Option.some.injEq,
              Prod.mk.injEq] at h
            obtain ⟨-, rfl⟩ := h
            exact ⟨rfl, rfl⟩
    all_goals
      dsimp only at h
      rw [bind_eq_some] at h
      obtain ⟨⟨l₁, ts₁⟩, s₁, h₁, h⟩ := h
      obtain ⟨new, hts, he⟩ := location_to_reg_spec _ _ _ _ _ _ _ _ _ h₁
      rw [bind_eq_some] at h
      obtain ⟨u, s₂, h₂, h₃⟩ := h
      have he₂ : Extends s s₂ new :=
        extends_preserves (move_location_reg_src_preserves _ _ _) h₂ he
      subst hts
      rw [releaseAll_extends he₂] at h₃
      simp only [Option.some.injEq, Prod.mk.injEq] at h₃
      obtain ⟨-, rfl⟩ := h₃
      exact ⟨rfl, he₂.2.2.2⟩
  case Memory2 b i m d => exact Option.noConfusion h

theorem finish_release {s sk s' : Machine} {n ts : List GPR} {a : Unit}
    (h : releaseAll ts sk = some (a, s')) (he : Extends s sk n)
    (hts : ts = n) :
    s'.usedG = s.usedG ∧ s'.usedS = s.usedS := by
  subst hts
  rw [releaseAll_extends he] at h
  simp only [Option.some.injEq, Prod.mk.injEq] at h
  obtain ⟨-, rfl⟩ := h
  exact ⟨rfl, he.2.2.2⟩

theorem emit_relaxed_binop_preserves (op : Size → Loc → Loc → Instr)
    (sz : Size) (src dst : Loc) (pb : Bool) :
    PreservesUsed (emit_relaxed_binop op sz src dst pb) := by
  intro s a s' h
  simp only [emit_relaxed_binop] at h
  rw [bind_eq_some] at h
  obtain ⟨⟨l₁, ts₁⟩, s₁, h₁, h⟩ := h
  obtain ⟨n₁, hts₁, he₁⟩ := location_to_reg_spec _ _ _ _ _ _ _ _ _ h₁
  dsimp only at h
  rw [bind_eq_some] at h
  obtain ⟨⟨l₂, ts₂⟩, s₂, h₂, h⟩ := h
  obtain ⟨n₂, hts₂, he₂⟩ := location_to_reg_spec _ _ _ _ _ _ _ _ _ h₂
  have heT : Extends s s₂ (n₁ ++ n₂) := extends_trans he₁ he₂
  dsimp only at h
  rw [bind_emitInstr] at h
  split at h
  · rw [bind_eq_some] at h
    obtain ⟨u, s₃, hmv, h⟩ := h
    exact finish_release h
      (extends_preserves (move_location_preserves _ _ _) hmv heT)
      (by simp [hts₂, hts₁])
  · simp only [bind_pure_l] at h
    exact finish_release h heT (by simp [hts₂, hts₁])

theorem emit_relaxed_ldr64_preserves (sz : Size) (dst src : Loc) :
    PreservesUsed (emit_relaxed_ldr64 sz dst src) := by
  intro s a s' h
  simp only [emit_relaxed_ldr64] at h
  rw [bind_eq_some] at h
  obtain ⟨⟨dest, ts₁⟩, s₁, h₁, h⟩ := h
  obtain ⟨n₁, hts₁, he₁⟩ := location_to_reg_spec _ _ _ _ _ _ _ _ _ h₁
  dsimp only at h
  cases src
  case Memory addr offset =>
    dsimp only at h
    repeat' split at h
    · rw [bind_emitInstr] at h
      simp only [bind_pure_l] at h
      rw [bind_eq_some] at h
      obtain ⟨u, s₃, hmv, h⟩ := h
      exact finish_release h
        (extends_preserves (move_location_preserves _ _ _) hmv he₁)
        (by simp [hts₁])
    · rw [bind_emitInstr] at h
      simp only [bind_pure_l] at h
      exact finish_release h he₁ (by simp [hts₁])
    · rw [bind_emitInstr] at h
      simp only [bind_pure_l] at h
      rw [bind_eq_some] at h
      obtain ⟨u, s₃, hmv, h⟩ := h
      exact finish_release h
        (extends_preserves (move_location_preserves _ _ _) hmv he₁)
        (by simp [hts₁])
    · rw [bind_emitInstr] at h
      simp only [bind_pure_l] at h
      exact finish_release h he₁ (by simp [hts₁])
    · rw [bind_eq_some] at h
      obtain ⟨t, t₁, hacq, h⟩ := h
      have heA : Extends s t₁ (n₁ ++ [t]) := extends_acquire hacq he₁
      rw [bind_emitInstr, bind_emitInstr] at h
      simp only [bind_pure_l] at h
      rw [bind_eq_some] at h
      obtain ⟨u, s₃, hmv, h⟩ := h
      exact finish_release h
        (extends_preserves (move_location_preserves _ _ _) hmv heA)
        (by simp [hts₁])
    · rw [bind_eq_some] at h
      obtain ⟨t, t₁, hacq, h⟩ := h
      have heA : Extends s t₁ (n₁ ++ [t]) := extends_acquire hacq he₁
      rw [bind_emitInstr, bind_emitInstr] at h
      simp only [bind_pure_l] at h
      exact finish_release h heA (by simp [hts₁])
  all_goals exact Option.noConfusion h

theorem emit_relaxed_binop3_preserves (op : Size → Loc → Loc → Loc → Instr)
    (sz : Size) (src1 src2 dst : Loc) (ai : ImmType) :
    PreservesUsed (emit_relaxed_binop3 op sz src1 src2 dst ai) := by
  intro s a s' h
  simp only [emit_relaxed_binop3] at h
  rw [bind_eq_some] at h
  obtain ⟨⟨l₁, ts₁⟩, s₁, h₁, h⟩ := h
  obtain ⟨n₁, hts₁, he₁⟩ := location_to_reg_spec _ _ _ _ _ _ _ _ _ h₁
  dsimp only at h
  rw [bind_eq_some] at h
  obtain ⟨⟨l₂, ts₂⟩, s₂, h₂, h⟩ := h
  obtain ⟨n₂, hts₂, he₂⟩ := location_to_reg_spec _ _ _ _ _ _ _ _ _ h₂
  dsimp only at h
  rw [bind_eq_some] at h
  obtain ⟨⟨l₃, ts₃⟩, s₃, h₃, h⟩ := h
  obtain ⟨n₃, hts₃, he₃⟩ := location_to_reg_spec _ _ _ _ _ _ _ _ _ h₃
  have heT : Extends s s₃ (n₁ ++ n₂ ++ n₃) :=
    extends_trans (extends_trans he₁ he₂) he₃
  dsimp only at h
  rw [bind_emitInstr] at h
  split at h
  · rw [bind_eq_some] at h
    obtain ⟨u, s₄, hmv, h⟩ := h
    exact finish_release h
      (extends_preserves (move_location_preserves _ _ _) hmv heT)
      (by simp [hts₃, hts₂, hts₁])
  · simp only [bind_pure_l] at h
    exact finish_release h heT (by simp [hts₃, hts₂, hts₁])

set_option maxRecDepth 8192 in
/-- `memory_op_prelude` acquires exactly one net temporary — the returned
`tmp_addr` — releasing every other register it acquires. -/
theorem memory_op_prelude_extends (addr : Loc) (memarg : MemoryImmediate)
    (ca : Bool) (vs : Nat) (nc im : Bool) (off : Int) (oob : Label)
    (s : Machine) (tmpa : GPR) (s' : Machine)
    (h : memory_op_prelude addr memarg ca vs nc im off oob s = some (tmpa, s')) :
    Extends s s' [tmpa] := by
  unfold memory_op_prelude at h
  rw [bind_eq_some] at h
  obtain ⟨ta, s₁, hacq, h⟩ := h
  have he₁ : Extends s s₁ ([] ++ [ta]) :=
    extends_acquire hacq (extends_nil s)
  rw [bind_eq_some] at h
  obtain ⟨⟨bl, bdl⟩, s₂, hb, h⟩ := h
  have he₂ : Extends s s₂ ([] ++ [ta]) := by
    split at hb
    · exact extends_preserves
        (bind_preserves (emit_relaxed_binop_preserves _ _ _ _ _)
          fun _ => pure_preserves _) hb he₁
    · exact extends_preserves (pure_preserves _) hb he₁
  dsimp only at h
  rw [bind_eq_some] at h
  obtain ⟨tb, s₃, hacq₂, h⟩ := h
  have he₃ : Extends s s₃ ([] ++ [ta] ++ [tb]) := extends_acquire hacq₂ he₂
  rw [bind_eq_some] at h
  obtain ⟨tc, s₄, hacq₃, h⟩ := h
  have he₄ : Extends s s₄ ([] ++ [ta] ++ [tb] ++ [tc]) :=
    extends_acquire hacq₃ he₃
  rw [bind_eq_some] at h
  obtain ⟨u₁, s₅, hldr, h⟩ := h
  have he₅ : Extends s s₅ ([] ++ [ta] ++ [tb] ++ [tc]) :=
    extends_preserves (emit_relaxed_ldr64_preserves _ _ _) hldr he₄
  rw [bind_eq_some] at h
  obtain ⟨u₂, s₆, hchk, h⟩ := h
  have he₆ : Extends s s₆ ([] ++ [ta] ++ [tb] ++ [tc]) := by
    split at hchk
    · rw [bind_eq_some] at hchk
      obtain ⟨u₃, t₁, hl, hchk⟩ := hchk
      have het : Extends s t₁ ([] ++ [ta] ++ [tb] ++ [tc]) :=
        extends_preserves (emit_relaxed_ldr64_preserves _ _ _) hl he₅
      rw [bind_emitInstr] at hchk
      split at hchk
      · exact extends_preserves (emitInstr_preserves _) hchk het
      · rw [bind_eq_some] at hchk
        obtain ⟨t2, t₂, hacq₄, hchk⟩ := hchk
        have hA : Extends s t₂ (([] ++ [ta] ++ [tb] ++ [tc]) ++ [t2]) :=
          extends_acquire hacq₄ het
        rw [bind_emitInstr, bind_emitInstr] at hchk
        exact extends_release hchk hA
    · exact extends_preserves (pure_preserves _) hchk he₅
  rw [bind_eq_some] at h
  obtain ⟨u₃, s₇, hmv, h⟩ := h
  have he₇ : Extends s s₇ ([] ++ [ta] ++ [tb] ++ [tc]) :=
    extends_preserves (move_location_preserves _ _ _) hmv he₆
  rw [bind_eq_some] at h
  obtain ⟨u₄, s₈, hoff, h⟩ := h
  have he₈ : Extends s s₈ ([] ++ [ta] ++ [tb] ++ [tc]) := by
    split at hoff
    · rw [bind_eq_some] at hoff
      obtain ⟨u₅, t₁, hi, hoff⟩ := hoff
      have het : Extends s t₁ ([] ++ [ta] ++ [tb] ++ [tc]) := by
        split at hi
        · exact extends_preserves (emitInstr_preserves _) hi he₇
        · rw [bind_eq_some] at hi
          obtain ⟨t2, t₂, hacq₄, hi⟩ := hi
          have hA : Extends s t₂ (([] ++ [ta] ++ [tb] ++ [tc]) ++ [t2]) :=
            extends_acquire hacq₄ he₇
          rw [bind_emitInstr, bind_emitInstr] at hi
          exact extends_release hi hA
      exact extends_preserves (emitInstr_preserves _) hoff het
    · exact extends_preserves (pure_preserves _) hoff he₇
  rw [bind_eq_some] at h
  obtain ⟨u₅, s₉, hadd, h⟩ := h
  have he₉ : Extends s s₉ ([] ++ [ta] ++ [tb] ++ [tc]) :=
    extends_preserves (emitInstr_preserves _) hadd he₈
  rw [bind_eq_some] at h
  obtain ⟨u₆, s₁₀, hnc, h⟩ := h
  have he₁₀ : Extends s s₁₀ ([] ++ [ta] ++ [tb] ++ [tc]) := by
    split at hnc
    · rw [bind_emitInstr] at hnc
      exact extends_preserves (emitInstr_preserves _) hnc he₉
    · exact extends_preserves (pure_preserves _) hnc he₉
  rw [bind_eq_some] at h
  obtain ⟨u₇, s₁₁, hrel₁, h⟩ := h
  have he₁₁ : Extends s s₁₁ ([] ++ [ta] ++ [tb]) := extends_release hrel₁ he₁₀
  rw [bind_eq_some] at h
  obtain ⟨u₈, s₁₂, hrel₂, h⟩ := h
  have he₁₂ : Extends s s₁₂ ([] ++ [ta]) := extends_release hrel₂ he₁₁
  rw [bind_eq_some] at h
  obtain ⟨u₉, s₁₃, hca, h⟩ := h
  have he₁₃ : Extends s s₁₃ ([] ++ [ta]) := by
    split at hca
    · rw [bind_emitInstr] at hca
      exact extends_preserves (emitInstr_preserves _) hca he₁₂
    · exact extends_preserves (pure_preserves _) hca he₁₂
  rw [run_pure] at h
  simp only [Option.some.injEq, Prod.mk.injEq] at h
  obtain ⟨rfl, rfl⟩ := h
  exact he₁₃

theorem memory_op_preserves (addr : Loc) (memarg : MemoryImmediate)
    (ca : Bool) (vs : Nat) (nc im : Bool) (off : Int) (oob : Label)
    (cb : GPR → M Unit) (hcb : ∀ g, PreservesUsed (cb g)) :
    PreservesUsed (memory_op addr memarg ca vs nc im off oob cb) := by
  intro s a s' h
  unfold memory_op at h
  rw [bind_eq_some] at h
  obtain ⟨ta, s₁, hpre, h⟩ := h
  have he₁ : Extends s s₁ ([] ++ [ta]) :=
    memory_op_prelude_extends _ _ _ _ _ _ _ _ _ _ _ hpre
  simp only [bind_getOffset] at h
  rw [bind_eq_some] at h
  obtain ⟨u, s₂, hc, h⟩ := h
  have he₂ : Extends s s₂ ([] ++ [ta]) := extends_preserves (hcb ta) hc he₁
  simp only [bind_getOffset] at h
  rw [bind_eq_some] at h
  obtain ⟨u₂, s₃, hmark, h⟩ := h
  have he₃ : Extends s s₃ ([] ++ [ta]) :=
    extends_preserves (mark_range_preserves _ _ _) hmark he₂
  have hfin : Extends s s' [] := extends_release h he₃
  exact ⟨hfin.1.trans (List.append_nil _), hfin.2.2.2⟩

theorem i32_popcnt_preserves (loc ret : Loc) :
    PreservesUsed (i32_popcnt loc ret) := by
  intro s a s' h
  unfold i32_popcnt at h
  rw [bind_eq_some] at h
  obtain ⟨⟨src₁, ts₁⟩, s₁, h₁, h⟩ := h
  obtain ⟨n₁, hts₁, he₁⟩ := location_to_reg_spec _ _ _ _ _ _ _ _ _ h₁
  dsimp only at h
  rw [bind_eq_some] at h
  obtain ⟨⟨dest, ts₂⟩, s₂, h₂, h⟩ := h
  obtain ⟨n₂, hts₂, he₂⟩ := location_to_reg_spec _ _ _ _ _ _ _ _ _ h₂
  have heT : Extends s s₂ (n₁ ++ n₂) := extends_trans he₁ he₂
  dsimp only at h
  split at h
  · rw [bind_eq_some] at h
    obtain ⟨t, t₁, hacqA, h⟩ := h
    have heA : Extends s t₁ ((n₁ ++ n₂) ++ [t]) := extends_acquire hacqA heT
    rw [bind_eq_some] at h
    obtain ⟨u₀, t₂, hm0, h⟩ := h
    have heB : Extends s t₂ ((n₁ ++ n₂) ++ [t]) :=
      extends_preserves (emitInstr_preserves _) hm0 heA
    simp only [bind_pure_l] at h
    rw [bind_eq_some] at h
    obtain ⟨t2, t₄, hacq₂, h⟩ := h
    have heC : Extends s t₄ (((n₁ ++ n₂) ++ [t]) ++ [t2]) :=
      extends_acquire hacq₂ heB
    simp only [bind_pure_l] at h
    rw [bind_newLabel, bind_newLabel, bind_emitInstr, bind_emitInstr,
      bind_emitInstr, bind_emitInstr, bind_emitInstr, bind_emitInstr,
      bind_emitInstr, bind_emitInstr, bind_emitInstr] at h
    split at h
    · rw [bind_eq_some] at h
      obtain ⟨u, s₅, hmv, h⟩ := h
      exact finish_release h
        (extends_preserves (move_location_preserves _ _ _) hmv heC)
        (by simp [hts₂, hts₁])
    · simp only [bind_pure_l] at h
      exact finish_release h heC (by simp [hts₂, hts₁])
  · simp only [bind_pure_l] at h
    rw [bind_eq_some] at h
    obtain ⟨t2, t₄, hacq₂, h⟩ := h
    have heC : Extends s t₄ ((n₁ ++ n₂) ++ [t2]) := extends_acquire hacq₂ heT
    simp only [bind_pure_l] at h
    rw [bind_newLabel, bind_newLabel, bind_emitInstr, bind_emitInstr,
      bind_emitInstr, bind_emitInstr, bind_emitInstr, bind_emitInstr,
      bind_emitInstr, bind_emitInstr, bind_emitInstr] at h
    split at h
    · rw [bind_eq_some] at h
      obtain ⟨u, s₅, hmv, h⟩ := h
      exact finish_release h
        (extends_preserves (move_location_preserves _ _ _) hmv heC)
        (by simp [hts₂, hts₁])
    · simp only [bind_pure_l] at h
      exact finish_release h heC (by simp [hts₂, hts₁])

/-- C5: every emission method releases each temporary register it acquires
on every exit path — after `emit_relaxed_binop3`, after `memory_op` (for
any callback that itself leaves the used sets unchanged) and after
`i32_popcnt` return, `used_gprs` and `used_simd` are equal to their
contents immediately before the call. -/
theorem C5_temps_released
    (op : Size → Loc → Loc → Loc → Instr) (sz : Size) (src1 src2 dst : Loc)
    (ai : ImmType) (addr : Loc) (memarg : MemoryImmediate) (ca : Bool)
    (vs : Nat) (nc im : Bool) (off : Int) (oob : Label) (cb : GPR → M Unit)
    (loc ret : Loc) (s₁ s₁' s₂ s₂' s₃ s₃' : Machine)
    (hcb : ∀ g, PreservesUsed (cb g))
    (h₁ : emit_relaxed_binop3 op sz src1 src2 dst ai s₁ = some ((), s₁'))
    (h₂ : memory_op addr memarg ca vs nc im off oob cb s₂ = some ((), s₂'))
    (h₃ : i32_popcnt loc ret s₃ = some ((), s₃')) :
    (s₁'.usedG = s₁.usedG ∧ s₁'.usedS = s₁.usedS) ∧
    (s₂'.usedG = s₂.usedG ∧ s₂'.usedS = s₂.usedS) ∧
    (s₃'.usedG = s₃.usedG ∧ s₃'.usedS = s₃.usedS) :=
  ⟨emit_relaxed_binop3_preserves op sz src1 src2 dst ai s₁ () s₁' h₁,
   memory_op_preserves addr memarg ca vs nc im off oob cb hcb s₂ () s₂' h₂,
   i32_popcnt_preserves loc ret s₃ () s₃' h₃⟩

theorem C5_witness :
    (C5binop3Final.usedG = ({} : Machine).usedG ∧
      C5binop3Final.usedS = ({} : Machine).usedS) ∧
    (C5memFinal.usedG = ({} : Machine).usedG ∧
      C5memFinal.usedS = ({} : Machine).usedS) ∧
    (C5popcntFinal.usedG = ({} : Machine).usedG ∧
      C5popcntFinal.usedS = ({} : Machine).usedS) :=
  C5_temps_released Instr.Add .S32 (.GPR .X0) (.GPR .X1) (.GPR .X2) .None
    (.GPR .X9) ⟨0, 1⟩ false 4 false false 0x30 100 (fun _ => pure ())
    (.GPR .X0) (.GPR .X1) {} C5binop3Final {} C5memFinal {} C5popcntFinal
    (fun _ => pure_preserves _)
    (by simp [emit_relaxed_binop3, location_to_reg, emitInstr, releaseAll,
      move_location, move_location_reg_src, C5binop3Final, Instr.width])
    (by simp [memory_op, memory_op_prelude, emit_relaxed_ldr64,
      location_to_reg, move_location, move_location_reg_src,
      compatible_imm_48_dword, compatible_imm_56_dword,
      acquire_temp_gpr, pick_temp_gpr, GPR_TEMP_REGS, release_gpr,
      releaseAll, emitInstr, getOffset, mark_address_range_with_trap_code,
      mark_instruction_address_end, trapInsert, emit_relaxed_binop,
      get_vmctx_reg, Instr.width, eraseFirst, List.find?, List.range',
      C5memFinal])
    (by simp [i32_popcnt, location_to_reg, acquire_temp_gpr, pick_temp_gpr,
      GPR_TEMP_REGS, emitInstr, newLabel, releaseAll, release_gpr,
      eraseFirst, move_location, move_location_reg_src, List.find?,
      C5popcntFinal, Instr.width])

end Wasmer
